import Mathlib

/-!
Verification of the maxGraph → draw.io XML dialect converter
(`convertMaxGraphToDrawIO` in `src/index.ts`).

The converter is a pipeline of string rewrites over the serialized XML:
four literal tag renames, four literal underscore-stripping rewrites on
geometry attribute patterns, one regex-driven flattening of a nested
style `Object` element into a `style="..."` attribute, and removal of the
`<GraphDataModel>` wrapper tags.  All of it is embedded here as total
functions on `List Char`, written with structural recursion so that
concrete instances evaluate by `decide`.

The Graph Builder (the maxGraph library's serializer) is an external
collaborator whose code is not part of this repository; its output format
is modelled from the specification (see `NativeDoc` below).
-/

namespace DrawioConv

/-- An XML attribute: a name and a (raw, already-escaped) value. -/
structure Attr where
  name : List Char
  value : List Char
deriving DecidableEq

/-- Modelled from the spec: a native cell element as the Graph Builder
serializes it.  Per the spec's data model a cell carries its scalar data
as attributes and optionally nests a geometry element (self-closing, with
prefixed position/size attribute names) and a style-descriptor `Object`
element marked by the discriminator attribute `as="style"`; the
discriminator may have attributes before (`pre`) and after (`post`) it. -/
inductive NativeCell where
  | selfClosed (attrs : List Attr)
  | plain (attrs : List Attr) (geom : List Attr)
  | styled (attrs : List Attr) (geom : List Attr) (pre post : List Attr)
deriving DecidableEq

/-- Modelled from the spec: a native document produced by the Graph
Builder, i.e. a single `<GraphDataModel>` wrapper enclosing the serialized
cells. -/
structure NativeDoc where
  cells : List NativeCell
deriving DecidableEq

/-- The text of one attribute without its leading space: `name="value"`. -/
def attrText (a : Attr) : List Char :=
  a.name ++ '=' :: '"' :: (a.value ++ ['"'])

/-- Serialized form of one attribute: a leading space, the name, `="`,
the value, and a closing quote. -/
def attrStr (a : Attr) : List Char := ' ' :: attrText a

/-- Serialized attribute list. -/
def attrsStr (l : List Attr) : List Char := (l.map attrStr).flatten

/-- Serialized form of one native cell. -/
def cellStr : NativeCell → List Char
  | .selfClosed attrs => "<Cell".data ++ attrsStr attrs ++ "/>".data
  | .plain attrs geom =>
      "<Cell".data ++ attrsStr attrs ++ ">".data ++
      "<Geometry".data ++ attrsStr geom ++ "/>".data ++ "</Cell>".data
  | .styled attrs geom pre post =>
      "<Cell".data ++ attrsStr attrs ++ ">".data ++
      "<Geometry".data ++ attrsStr geom ++ "/>".data ++
      "<Object".data ++ attrsStr pre ++ " as=\"style\"".data ++
      attrsStr post ++ "/>".data ++ "</Cell>".data

/-- Serialized native document: the wrapper tag around the cells. -/
def docStr (d : NativeDoc) : List Char :=
  "<GraphDataModel>".data ++ (d.cells.map cellStr).flatten ++ "</GraphDataModel>".data

/-- The native document as a `String` (input to the converter). -/
def docString (d : NativeDoc) : String := String.mk (docStr d)

/-! ### The embedded converter

`String.prototype.replace` with a `/g` literal pattern rewrites all
non-overlapping occurrences left to right, never rescanning replaced
text.  `raGo` implements that scan with a skip counter (after emitting a
replacement it skips the remaining matched characters), which keeps the
recursion structural. -/

/-- Scanner for global literal replacement; `k` characters of a previous
match remain to be skipped. -/
def raGo (pat rep : List Char) : Nat → List Char → List Char
  | _, [] => []
  | Nat.succ k, _ :: cs => raGo pat rep k cs
  | 0, c :: cs =>
    if pat.isPrefixOf (c :: cs) then rep ++ raGo pat rep (pat.length - 1) cs
    else c :: raGo pat rep 0 cs

/-- JS `s.replace(/pat/g, rep)` for a literal pattern. -/
def replaceAllL (pat rep : List Char) (s : List Char) : List Char :=
  raGo pat rep 0 s

/-- JS `s.replace(pat, rep)` with a string pattern: first occurrence only. -/
def replaceFirstL (pat rep : List Char) : List Char → List Char
  | [] => []
  | c :: cs =>
    if pat.isPrefixOf (c :: cs) then rep ++ (c :: cs).drop pat.length
    else c :: replaceFirstL pat rep cs

/-- JS regex `\w`. -/
def wordChar (c : Char) : Bool := c.isAlpha || c.isDigit || c == '_'

/-- The character class `[^"]` as a Bool predicate. -/
def notQuote (c : Char) : Bool := c != '"'

/-- One attempt of the regex `(\w+)="([^"]*?)"` at the head of `s`:
a maximal word run, then `="`, then the value up to the next quote.
Returns the matched text and the rest of the string. -/
def matchAttrAt (s : List Char) : Option (List Char × List Char) :=
  if s.takeWhile wordChar = [] then none
  else
    match s.dropWhile wordChar with
    | c1 :: c2 :: r =>
      if c1 = '=' ∧ c2 = '"' then
        match r.dropWhile notQuote with
        | [] => none
        | _ :: rest =>
          some (s.takeWhile wordChar ++ '=' :: '"' :: (r.takeWhile notQuote ++ ['"']), rest)
      else none
    | _ => none

/-- Scanner for `styleAttrs.match(/(\w+)="([^"]*?)"/g)`: collect all
non-overlapping matches left to right. -/
def asGo : Nat → List Char → List (List Char)
  | _, [] => []
  | Nat.succ k, _ :: cs => asGo k cs
  | 0, c :: cs =>
    match matchAttrAt (c :: cs) with
    | some (m, rest) => m :: asGo ((c :: cs).length - rest.length - 1) cs
    | none => asGo 0 cs

/-- All matches of the attribute regex in `s`. -/
def attrScan (s : List Char) : List (List Char) := asGo 0 s

/-- JS `attr.replace(/="([^"]*)"/, "=$1")`: rewrite the first
`="…"` group, dropping the quotes around the captured value. -/
def unquoteFrom : List Char → List Char
  | [] => []
  | [c] => [c]
  | c :: c2 :: r =>
    if c = '=' ∧ c2 = '"' then
      let V := r.takeWhile notQuote
      if V.length < r.length then '=' :: (V ++ r.drop (V.length + 1))
      else '=' :: '"' :: unquoteFrom r
    else c :: unquoteFrom (c2 :: r)

/-- JS `Array.prototype.join(";")`. -/
def joinSemi : List (List Char) → List Char
  | [] => []
  | [m] => m
  | m :: ms => m ++ ';' :: joinSemi ms

/-- The lazy search `([^>]*?)as="style"`: find the first occurrence of
the discriminator, scanning only characters other than `>`.  Returns the
skipped prefix (capture group 3) and the rest after the discriminator. -/
def findDisc : List Char → Option (List Char × List Char)
  | [] => none
  | c :: cs =>
    if "as=\"style\"".data.isPrefixOf (c :: cs) then
      some ([], (c :: cs).drop "as=\"style\"".data.length)
    else if c = '>' then none
    else
      match findDisc cs with
      | some (C, r) => some (c :: C, r)
      | none => none

/-- The replacement built by the flattening callback from the captured
cell attributes `A`, geometry attributes `B` and style attributes `C`. -/
def mkRepl (A B C : List Char) : List Char :=
  let styles := joinSemi
    (((attrScan C).filter (fun m => !("as=".data.isPrefixOf m))).map unquoteFrom)
  let styleAttr := if styles = [] then [] else " style=\"".data ++ styles ++ ";\"".data
  "<mxCell".data ++ A ++ styleAttr ++ ">".data ++
  "<mxGeometry".data ++ B ++ "/>".data ++ "</mxCell>".data

/-- Strip a literal pattern from the front, or fail. -/
def stripPre (pat t : List Char) : Option (List Char) :=
  if pat.isPrefixOf t then some (t.drop pat.length) else none

/-- The character class `[^>]` as a Bool predicate. -/
def notGt (c : Char) : Bool := c != '>'

/-- Everything after the first `>`, or fail when there is none. -/
def afterGt (s : List Char) : Option (List Char) :=
  match s.dropWhile notGt with
  | [] => none
  | _ :: t => some t

/-- One attempt of the flattening regex
`<mxCell([^>]*?)><mxGeometry([^>]*?)\/><Object ([^>]*?)as="style"[^>]*?\/><\/mxCell>`
at the head of `s`.  Lazy classes excluding `>` force each capture to run
to the next `>`, with `\/>` requiring that run to end in a slash. -/
def tryMatch (s : List Char) : Option (List Char × List Char) :=
  (stripPre "<mxCell".data s).bind fun s1 =>
    (afterGt s1).bind fun s2 =>
      (stripPre "<mxGeometry".data s2).bind fun s3 =>
        (afterGt s3).bind fun s4 =>
          if (s3.takeWhile notGt).getLast? = some '/' then
            (stripPre "<Object ".data s4).bind fun s5 =>
              (findDisc s5).bind fun Cr =>
                (afterGt Cr.2).bind fun s7 =>
                  if (Cr.2.takeWhile notGt).getLast? = some '/' then
                    (stripPre "</mxCell>".data s7).bind fun s8 =>
                      some (mkRepl (s1.takeWhile notGt) (s3.takeWhile notGt).dropLast Cr.1, s8)
                  else none
          else none

/-- Scanner for the global flattening replace, skip-counter style. -/
def fsGo : Nat → List Char → List Char
  | _, [] => []
  | Nat.succ k, _ :: cs => fsGo k cs
  | 0, c :: cs =>
    match tryMatch (c :: cs) with
    | some (r, rest) => r ++ fsGo ((c :: cs).length - rest.length - 1) cs
    | none => c :: fsGo 0 cs

/-- The style-flattening pass (the third `replace` group in the source). -/
def flattenStyles (s : List Char) : List Char := fsGo 0 s

/-- The full converter on character lists: tag renames, geometry
attribute un-prefixing, style flattening, wrapper removal — in the
source's order. -/
def convertL (s : List Char) : List Char :=
  replaceFirstL "</GraphDataModel>".data []
    (replaceFirstL "<GraphDataModel>".data []
      (flattenStyles
        (replaceAllL "_height=\"".data "height=\"".data
          (replaceAllL "_width=\"".data "width=\"".data
            (replaceAllL "_y=\"".data "y=\"".data
              (replaceAllL "_x=\"".data "x=\"".data
                (replaceAllL "</Geometry>".data "</mxGeometry>".data
                  (replaceAllL "<Geometry".data "<mxGeometry".data
                    (replaceAllL "</Cell>".data "</mxCell>".data
                      (replaceAllL "<Cell".data "<mxCell".data s))))))))))

/-- The embedded `convertMaxGraphToDrawIO` from `src/index.ts`. -/
def convertMaxGraphToDrawIO (s : String) : String := String.mk (convertL s.data)

/-- No nonempty proper suffix of `a` is a prefix of `pat`; hence no
occurrence of `pat` can start inside `a` and continue past its end. -/
def safeBoundary (pat a : List Char) : Prop :=
  ∀ s : List Char, s <:+ a → s ≠ [] → s.length < pat.length → ¬ s <+: pat

/-- Number of positions of `s` at which `pat` occurs. -/
def countSubstr (pat : List Char) : List Char → Nat
  | [] => 0
  | c :: cs => (if pat.isPrefixOf (c :: cs) then 1 else 0) + countSubstr pat cs

/-! ### The expected per-cell output -/

/-- Strip the underscore prefix from the four geometry attribute names. -/
def stripGeomName (n : List Char) : List Char :=
  if n = "_x".data then "x".data
  else if n = "_y".data then "y".data
  else if n = "_width".data then "width".data
  else if n = "_height".data then "height".data
  else n

/-- Geometry attribute after un-prefixing. -/
def convGeomAttr (a : Attr) : Attr := ⟨stripGeomName a.name, a.value⟩

/-- One flattened style entry `name=value` (unquoted). -/
def styleEntry (a : Attr) : List Char := a.name ++ '=' :: a.value

/-- The flattened style string body: entries joined by `;`. -/
def styleBody (l : List Attr) : List Char := joinSemi (l.map styleEntry)

/-- The synthesized `style` attribute, or nothing when there are no
style entries. -/
def styleAttrStr (pre : List Attr) : List Char :=
  if pre = [] then [] else " style=\"".data ++ styleBody pre ++ ";\"".data

/-- The converter's output for one native cell. -/
def convertCell : NativeCell → List Char
  | .selfClosed attrs => "<mxCell".data ++ attrsStr attrs ++ "/>".data
  | .plain attrs geom =>
      "<mxCell".data ++ attrsStr attrs ++ ">".data ++
      "<mxGeometry".data ++ attrsStr (geom.map convGeomAttr) ++ "/>".data ++
      "</mxCell>".data
  | .styled attrs geom pre _post =>
      "<mxCell".data ++ attrsStr attrs ++ styleAttrStr pre ++ ">".data ++
      "<mxGeometry".data ++ attrsStr (geom.map convGeomAttr) ++ "/>".data ++
      "</mxCell>".data

/-- Rename an attribute when its name matches exactly. -/
def ren (nm nm' : List Char) (a : Attr) : Attr :=
  if a.name = nm then ⟨nm', a.value⟩ else a

/-- Generic serialized cell form, parametric in the cell/close/geometry
tag texts and a transformation of the geometry attributes.  The eight
literal rewrite passes of the converter move a cell between instances of
this form. -/
def genCell (t1 t2 t3 : List Char) (G : List Attr → List Attr) : NativeCell → List Char
  | .selfClosed attrs => t1 ++ attrsStr attrs ++ "/>".data
  | .plain attrs geom =>
      t1 ++ attrsStr attrs ++ ">".data ++
      t3 ++ attrsStr (G geom) ++ "/>".data ++ t2
  | .styled attrs geom pre post =>
      t1 ++ attrsStr attrs ++ ">".data ++
      t3 ++ attrsStr (G geom) ++ "/>".data ++
      "<Object".data ++ attrsStr pre ++ " as=\"style\"".data ++
      attrsStr post ++ "/>".data ++ t2

/-- The serialized cell after the eight literal passes, just before the
style-flattening pass. -/
def preFlat : NativeCell → List Char :=
  genCell "<mxCell".data "</mxCell>".data "<mxGeometry".data (List.map convGeomAttr)

/-! ### Well-formedness of builder output

Modelled from the spec: the builder serializes an in-memory model, so
attribute names are identifier-like and attribute values are XML-escaped
text (no raw `<`, `>`, `"`; no `=`). -/

/-- An identifier-like attribute name: nonempty, letters and digits. -/
def cleanName (n : List Char) : Prop :=
  n ≠ [] ∧ ∀ c ∈ n, (c.isAlpha = true ∨ c.isDigit = true)

/-- An escaped attribute value: no markup characters. -/
def cleanValue (v : List Char) : Prop :=
  ∀ c ∈ v, c ≠ '<' ∧ c ≠ '>' ∧ c ≠ '"' ∧ c ≠ '='

/-- A well-formed ordinary attribute. -/
def cleanAttr (a : Attr) : Prop := cleanName a.name ∧ cleanValue a.value

/-- A well-formed geometry attribute: one of the four prefixed names, or
an ordinary name. -/
def geomAttrOK (a : Attr) : Prop :=
  (a.name = "_x".data ∨ a.name = "_y".data ∨ a.name = "_width".data ∨
   a.name = "_height".data ∨ cleanName a.name) ∧ cleanValue a.value

/-- A well-formed style attribute: ordinary, not itself named `as`, and
not spoofing the discriminator text. -/
def styleAttrOK (a : Attr) : Prop :=
  cleanAttr a ∧ a.name ≠ "as".data ∧
  ¬ ("as".data <:+ a.name ∧ a.value = "style".data)

/-- Well-formedness of one native cell. -/
def cellOK : NativeCell → Prop
  | .selfClosed attrs => ∀ a ∈ attrs, cleanAttr a
  | .plain attrs geom =>
      (∀ a ∈ attrs, cleanAttr a) ∧ (∀ g ∈ geom, geomAttrOK g)
  | .styled attrs geom pre post =>
      (∀ a ∈ attrs, cleanAttr a) ∧ (∀ g ∈ geom, geomAttrOK g) ∧
      (∀ p ∈ pre, styleAttrOK p) ∧ (∀ q ∈ post, cleanAttr q)

/-- Well-formedness of a native document. -/
def WFdoc (d : NativeDoc) : Prop := ∀ c ∈ d.cells, cellOK c

instance : DecidablePred cleanName := fun n => by
  unfold cleanName; infer_instance

instance : DecidablePred cleanValue := fun v => by
  unfold cleanValue; infer_instance

instance : DecidablePred cleanAttr := fun a => by
  unfold cleanAttr; infer_instance

instance : DecidablePred geomAttrOK := fun a => by
  unfold geomAttrOK; infer_instance

instance : DecidablePred styleAttrOK := fun a => by
  unfold styleAttrOK; infer_instance

instance : DecidablePred cellOK := fun c => by
  cases c <;> (unfold cellOK; infer_instance)

instance : DecidablePred WFdoc := fun d => by
  unfold WFdoc; infer_instance

instance (pat a : List Char) : Decidable (safeBoundary pat a) :=
  decidable_of_iff
    (∀ s ∈ a.tails, s ≠ [] → s.length < pat.length → ¬ s <+: pat)
    (by
      constructor
      · intro h s hs
        exact h s ((List.mem_tails s a).mpr hs)
      · intro h s hs
        exact h s ((List.mem_tails s a).mp hs))

/-! ### Example documents used as concrete instances -/

/-- A document with one styled cell whose descriptor holds
`fillColor="#FF9900"` then `rounded="true"` before the discriminator. -/
def dStyled : NativeDoc := ⟨[.styled [⟨"id".data, "a".data⟩] [⟨"_x".data, "1".data⟩]
  [⟨"fillColor".data, "#FF9900".data⟩, ⟨"rounded".data, "true".data⟩] []]⟩

/-- A document with one styled cell whose descriptor holds an attribute
after the discriminator. -/
def dPost : NativeDoc := ⟨[.styled [⟨"id".data, "a".data⟩] [⟨"_x".data, "1".data⟩]
  [⟨"fillColor".data, "#FF9900".data⟩] [⟨"rounded".data, "true".data⟩]]⟩

/-- A document with one plain cell (geometry, no style descriptor). -/
def dPlainDoc : NativeDoc := ⟨[.plain [⟨"id".data, "t".data⟩] [⟨"_x".data, "2".data⟩]]⟩

/-- A document with one styled cell whose descriptor holds nothing but
the discriminator. -/
def dEmptySty : NativeDoc := ⟨[.styled [⟨"id".data, "a".data⟩] [⟨"_y".data, "3".data⟩] [] []]⟩

/-- A document with three cells of the three shapes. -/
def dMix : NativeDoc := ⟨[
  .selfClosed [⟨"id".data, "0".data⟩],
  .plain [⟨"id".data, "t".data⟩] [⟨"_x".data, "2".data⟩],
  .styled [⟨"id".data, "a".data⟩] [⟨"_width".data, "40".data⟩]
    [⟨"rounded".data, "true".data⟩] []]⟩

/-- A second three-cell document. -/
def dMix2 : NativeDoc := ⟨[
  .plain [⟨"id".data, "g".data⟩] [⟨"_height".data, "7".data⟩],
  .selfClosed [⟨"id".data, "1".data⟩],
  .styled [⟨"id".data, "b".data⟩] [⟨"_x".data, "5".data⟩, ⟨"_y".data, "6".data⟩]
    [⟨"fillColor".data, "red".data⟩] []]⟩

/-! ### Generic facts about the scanners -/

theorem raGo_skip (pat rep : List Char) :
    ∀ (s : List Char) (k : Nat), raGo pat rep k s = raGo pat rep 0 (s.drop k) := by
  intro s
  induction s with
  | nil => intro k; cases k <;> rfl
  | cons c cs ih =>
    intro k
    cases k with
    | zero => rfl
    | succ k => simpa [raGo] using ih k

theorem ra_nil (pat rep : List Char) : replaceAllL pat rep [] = [] := rfl

theorem ra_cons_pos (pat rep : List Char) (c : Char) (cs : List Char)
    (hp : pat ≠ []) (h : pat <+: (c :: cs)) :
    replaceAllL pat rep (c :: cs) =
      rep ++ replaceAllL pat rep ((c :: cs).drop pat.length) := by
  have hb : pat.isPrefixOf (c :: cs) = true := List.isPrefixOf_iff_prefix.mpr h
  obtain ⟨n, hn⟩ : ∃ n, pat.length = n + 1 := by
    cases hl : pat.length with
    | zero => exact absurd (List.length_eq_zero.mp hl) hp
    | succ n => exact ⟨n, rfl⟩
  show raGo pat rep 0 (c :: cs) = _
  rw [show raGo pat rep 0 (c :: cs) = rep ++ raGo pat rep (pat.length - 1) cs by
    simp [raGo, hb]]
  rw [raGo_skip, hn]
  rfl

theorem ra_cons_neg (pat rep : List Char) (c : Char) (cs : List Char)
    (h : ¬ pat <+: (c :: cs)) :
    replaceAllL pat rep (c :: cs) = c :: replaceAllL pat rep cs := by
  have hb : pat.isPrefixOf (c :: cs) = false := by
    by_contra hx
    exact h (List.isPrefixOf_iff_prefix.mp (eq_true_of_ne_false hx))
  show raGo pat rep 0 (c :: cs) = _
  simp [raGo, hb]
  rfl

theorem ra_head (pat rep t : List Char) (hp : pat ≠ []) :
    replaceAllL pat rep (pat ++ t) = rep ++ replaceAllL pat rep t := by
  obtain ⟨c, pr, rfl⟩ : ∃ c pr, pat = c :: pr := by
    cases pat with
    | nil => exact absurd rfl hp
    | cons c pr => exact ⟨c, pr, rfl⟩
  rw [show (c :: pr) ++ t = c :: (pr ++ t) by rfl]
  rw [ra_cons_pos _ _ _ _ hp (by exact ⟨t, rfl⟩)]
  congr 1
  rw [show c :: (pr ++ t) = (c :: pr) ++ t by rfl, List.drop_left]

theorem sb_nil (pat : List Char) : safeBoundary pat [] := by
  intro s hs hne _
  exact absurd (List.suffix_nil.mp hs) hne

theorem sb_mono (pat a t : List Char) (h : safeBoundary pat a) (ht : t <:+ a) :
    safeBoundary pat t := fun s hs => h s (hs.trans ht)

theorem suffix_getLast_eq (s a : List Char) (hs : s <:+ a) (hne : s ≠ []) :
    a.getLast? = s.getLast? := by
  obtain ⟨u, rfl⟩ := hs
  exact List.getLast?_append_of_ne_nil u hne

theorem prefix_head_eq (s pat : List Char) (h : s <+: pat) (hne : s ≠ []) :
    pat.head? = s.head? := by
  obtain ⟨t, rfl⟩ := h
  cases s with
  | nil => exact absurd rfl hne
  | cons c cs => rfl

theorem sb_of_getLast (pat a : List Char) (ch : Char)
    (hch : a.getLast? = some ch) (hpat : ch ∉ pat.dropLast) : safeBoundary pat a := by
  intro s hs hne hlt hpre
  have hsl : s.getLast? = some ch := by
    rw [← suffix_getLast_eq s a hs hne]
    exact hch
  obtain ⟨r, hr⟩ := hpre
  have hrne : r ≠ [] := by
    intro h0
    rw [h0, List.append_nil] at hr
    rw [hr] at hlt
    exact lt_irrefl _ hlt
  have hmem : ch ∈ s := by
    rw [List.getLast?_eq_getLast s hne] at hsl
    exact (Option.some.inj hsl) ▸ List.getLast_mem hne
  apply hpat
  rw [← hr, List.dropLast_append_of_ne_nil s hrne]
  exact List.mem_append_left _ hmem

theorem sb_of_head (pat a : List Char) (ch : Char)
    (hh : pat.head? = some ch) (ha : ch ∉ a) : safeBoundary pat a := by
  intro s hs hne _ hpre
  apply ha
  cases s with
  | nil => exact absurd rfl hne
  | cons c cs =>
    have h2 : some c = some ch := ((prefix_head_eq _ pat hpre hne).symm).trans hh
    have hc : c = ch := Option.some.inj h2
    exact hs.subset (by rw [← hc]; exact List.mem_cons_self c cs)

theorem ra_skip_head (pat rep : List Char) (ch : Char)
    (hh : pat.head? = some ch) :
    ∀ (a b : List Char), ch ∉ a →
      replaceAllL pat rep (a ++ b) = a ++ replaceAllL pat rep b := by
  intro a
  induction a with
  | nil => intro b _; rfl
  | cons c cs ih =>
    intro b ha
    have hpne : pat ≠ [] := by
      intro h0; rw [h0] at hh; exact Option.noConfusion hh
    have hnp : ¬ pat <+: (c :: (cs ++ b)) := by
      intro hp
      have h2 : some c = some ch := (prefix_head_eq pat (c :: (cs ++ b)) hp hpne).trans hh
      exact ha (by rw [← Option.some.inj h2]; exact List.mem_cons_self c cs)
    rw [show (c :: cs) ++ b = c :: (cs ++ b) from rfl, ra_cons_neg _ _ _ _ hnp,
        ih b (fun hx => ha (List.mem_cons_of_mem c hx))]
    rfl

theorem prefix_through (pat a b : List Char) (hsb : safeBoundary pat a) (hne : a ≠ []) :
    (pat <+: a ++ b) ↔ (pat <+: a) := by
  constructor
  · intro h
    by_cases hl : pat.length ≤ a.length
    · exact List.prefix_of_prefix_length_le h (List.prefix_append a b) hl
    · exfalso
      have h2 : a <+: pat :=
        List.prefix_of_prefix_length_le (List.prefix_append a b) h (le_of_not_le hl)
      exact hsb a (List.suffix_refl a) hne (lt_of_not_le hl) h2
  · intro h
    exact h.trans (List.prefix_append a b)

theorem ra_append (pat rep : List Char) (hp : pat ≠ []) :
    ∀ (a b : List Char), safeBoundary pat a →
      replaceAllL pat rep (a ++ b) = replaceAllL pat rep a ++ replaceAllL pat rep b := by
  have main : ∀ (n : Nat) (a b : List Char), a.length ≤ n → safeBoundary pat a →
      replaceAllL pat rep (a ++ b) = replaceAllL pat rep a ++ replaceAllL pat rep b := by
    intro n
    induction n with
    | zero =>
      intro a b ha _
      rw [List.length_eq_zero.mp (Nat.le_zero.mp ha)]
      rfl
    | succ n ih =>
      intro a b ha hsb
      cases a with
      | nil => rfl
      | cons c cs =>
        by_cases hpre : pat <+: (c :: cs)
        · have h1 : pat <+: (c :: (cs ++ b)) :=
            (prefix_through pat (c :: cs) b hsb (by simp)).mpr hpre
          rw [show (c :: cs) ++ b = c :: (cs ++ b) from rfl,
              ra_cons_pos _ _ _ _ hp h1, ra_cons_pos _ _ _ _ hp hpre]
          have hlen : pat.length ≤ (c :: cs).length := hpre.length_le
          rw [show c :: (cs ++ b) = (c :: cs) ++ b from rfl,
              List.drop_append_of_le_length hlen]
          rw [ih ((c :: cs).drop pat.length) b
              (by
                rw [List.length_drop]
                have h4 : 0 < pat.length := List.length_pos.mpr hp
                simp only [List.length_cons] at ha ⊢
                omega)
              (sb_mono pat _ _ hsb (List.drop_suffix _ _))]
          rw [List.append_assoc]
        · have h1 : ¬ pat <+: (c :: (cs ++ b)) := by
            intro hx
            exact hpre ((prefix_through pat (c :: cs) b hsb (by simp)).mp
              (by rw [show (c :: cs) ++ b = c :: (cs ++ b) from rfl]; exact hx))
          rw [show (c :: cs) ++ b = c :: (cs ++ b) from rfl,
              ra_cons_neg _ _ _ _ h1, ra_cons_neg _ _ _ _ hpre,
              ih cs b (by simp only [List.length_cons] at ha; omega)
                (sb_mono pat _ _ hsb (List.suffix_cons c cs))]
          rfl
  intro a b hsb
  exact main a.length a b le_rfl hsb

theorem ra_eq_self (pat rep : List Char) :
    ∀ (s : List Char), ¬ pat <:+: s → replaceAllL pat rep s = s := by
  intro s
  induction s with
  | nil => intro _; rfl
  | cons c cs ih =>
    intro h
    rw [ra_cons_neg _ _ _ _ (fun hp => h hp.isInfix),
        ih (fun hi => h (List.infix_cons hi))]

theorem not_infix_of_mem (pat s : List Char) (ch : Char) (h : ch ∈ pat) (hn : ch ∉ s) :
    ¬ pat <:+: s := fun hi => hn (hi.sublist.subset h)

theorem infix_split (pat : List Char) :
    ∀ (a b : List Char), pat <:+: a ++ b →
      pat <:+: a ∨ pat <:+: b ∨
      ∃ p q, p ≠ [] ∧ q ≠ [] ∧ pat = p ++ q ∧ p <:+ a ∧ q <+: b := by
  intro a
  induction a with
  | nil =>
    intro b h
    exact Or.inr (Or.inl (by simpa using h))
  | cons x a2 ih =>
    intro b h
    rw [show (x :: a2) ++ b = x :: (a2 ++ b) from rfl] at h
    rcases List.infix_cons_iff.mp h with hpre | hinf
    · by_cases hlen : pat.length ≤ (x :: a2).length
      · left
        exact (List.prefix_of_prefix_length_le hpre (List.prefix_append (x :: a2) b) hlen).isInfix
      · right; right
        have h1 : (x :: a2) <+: pat :=
          List.prefix_of_prefix_length_le (List.prefix_append (x :: a2) b) hpre
            (le_of_not_le hlen)
        obtain ⟨q, hq⟩ := h1
        refine ⟨x :: a2, q, by simp, ?_, hq.symm, List.suffix_refl _, ?_⟩
        · intro h0
          rw [h0, List.append_nil] at hq
          rw [← hq] at hlen
          exact hlen le_rfl
        · obtain ⟨r, hr⟩ := hpre
          rw [← hq, List.append_assoc] at hr
          exact ⟨r, List.append_cancel_left hr⟩
    · rcases ih b hinf with h1 | h1 | ⟨p, q, hp, hq, hpq, hpa, hqb⟩
      · left; exact List.infix_cons h1
      · right; left; exact h1
      · exact Or.inr (Or.inr ⟨p, q, hp, hq, hpq, hpa.trans (List.suffix_cons x a2), hqb⟩)

theorem not_infix_append (pat a b : List Char) (hsb : safeBoundary pat a)
    (ha : ¬ pat <:+: a) (hb : ¬ pat <:+: b) : ¬ pat <:+: (a ++ b) := by
  intro h
  rcases infix_split pat a b h with h1 | h1 | ⟨p, q, hp, hq, hpq, hpa, hqb⟩
  · exact ha h1
  · exact hb h1
  · have hlt : p.length < pat.length := by
      rw [hpq, List.length_append]
      have := List.length_pos.mpr hq
      omega
    exact hsb p hpa hp hlt ⟨q, hpq.symm⟩

theorem suffix_append_cases (s a b : List Char) (h : s <:+ a ++ b) :
    s <:+ b ∨ ∃ t, t <:+ a ∧ t ≠ [] ∧ s = t ++ b := by
  by_cases hl : s.length ≤ b.length
  · left
    have h1 : s.reverse <+: (a ++ b).reverse := List.reverse_prefix.mpr h
    have h2 : b.reverse <+: (a ++ b).reverse := List.reverse_prefix.mpr (List.suffix_append a b)
    exact List.reverse_prefix.mp
      (List.prefix_of_prefix_length_le h1 h2 (by simpa using hl))
  · right
    have h1 : s.reverse <+: (a ++ b).reverse := List.reverse_prefix.mpr h
    have h2 : b.reverse <+: (a ++ b).reverse := List.reverse_prefix.mpr (List.suffix_append a b)
    have h3 : b.reverse <+: s.reverse :=
      List.prefix_of_prefix_length_le h2 h1 (by simp; omega)
    have h4 : b <:+ s := List.reverse_prefix.mp h3
    obtain ⟨t, ht⟩ := h4
    obtain ⟨u, hu⟩ := h
    refine ⟨t, ?_, ?_, ht.symm⟩
    · rw [← ht, ← List.append_assoc] at hu
      exact ⟨u, List.append_cancel_right hu⟩
    · intro h0
      rw [h0, List.nil_append] at ht
      rw [← ht] at hl
      exact hl le_rfl

theorem sb_append (pat a b : List Char) (hsa : safeBoundary pat a)
    (hsb : safeBoundary pat b) : safeBoundary pat (a ++ b) := by
  intro s hs hne hlt hpre
  rcases suffix_append_cases s a b hs with h1 | ⟨t, hta, htne, rfl⟩
  · exact hsb s h1 hne hlt hpre
  · have htlt : t.length < pat.length := by
      have : t.length ≤ (t ++ b).length := by simp
      omega
    have htp : t <+: pat := by
      obtain ⟨r, hr⟩ := hpre
      exact ⟨b ++ r, by rw [← List.append_assoc, hr]⟩
    exact hsa t hta htne htlt htp

theorem ra_chunks (pat rep : List Char) (hp : pat ≠ []) :
    ∀ (L : List (List Char)), (∀ x ∈ L, safeBoundary pat x) →
      replaceAllL pat rep L.flatten = (L.map (replaceAllL pat rep)).flatten := by
  intro L
  induction L with
  | nil => intro _; rfl
  | cons x xs ih =>
    intro h
    rw [List.flatten_cons, ra_append pat rep hp x xs.flatten (h x (by simp)),
        List.map_cons, List.flatten_cons, ih (fun y hy => h y (by simp [hy]))]

theorem csub_cons_pos (pat : List Char) (c : Char) (cs : List Char) (h : pat <+: (c :: cs)) :
    countSubstr pat (c :: cs) = 1 + countSubstr pat cs := by
  simp [countSubstr, List.isPrefixOf_iff_prefix.mpr h]

theorem csub_cons_neg (pat : List Char) (c : Char) (cs : List Char) (h : ¬ pat <+: (c :: cs)) :
    countSubstr pat (c :: cs) = countSubstr pat cs := by
  have hb : ¬ (pat.isPrefixOf (c :: cs) = true) :=
    fun hx => h (List.isPrefixOf_iff_prefix.mp hx)
  simp [countSubstr, hb]

theorem csub_append (pat : List Char) :
    ∀ (a b : List Char), safeBoundary pat a →
      countSubstr pat (a ++ b) = countSubstr pat a + countSubstr pat b := by
  intro a
  induction a with
  | nil => intro b _; simp [countSubstr]
  | cons c cs ih =>
    intro b hsb
    rw [show (c :: cs) ++ b = c :: (cs ++ b) from rfl]
    by_cases hpre : pat <+: (c :: cs)
    · rw [csub_cons_pos pat c _ (by
          rw [show c :: (cs ++ b) = (c :: cs) ++ b from rfl]
          exact (prefix_through pat (c :: cs) b hsb (by simp)).mpr hpre),
        csub_cons_pos pat c cs hpre,
        ih b (sb_mono pat _ _ hsb (List.suffix_cons c cs))]
      omega
    · rw [csub_cons_neg pat c _ (by
          intro hx
          exact hpre ((prefix_through pat (c :: cs) b hsb (by simp)).mp
            (by rw [show (c :: cs) ++ b = c :: (cs ++ b) from rfl]; exact hx))),
        csub_cons_neg pat c cs hpre,
        ih b (sb_mono pat _ _ hsb (List.suffix_cons c cs))]

theorem csub_eq_zero (pat : List Char) :
    ∀ (s : List Char), ¬ pat <:+: s → countSubstr pat s = 0 := by
  intro s
  induction s with
  | nil => intro _; rfl
  | cons c cs ih =>
    intro h
    rw [csub_cons_neg _ _ _ (fun hp => h hp.isInfix), ih (fun hi => h (List.infix_cons hi))]

theorem rf_head (pat rep t : List Char) (hp : pat ≠ []) :
    replaceFirstL pat rep (pat ++ t) = rep ++ t := by
  obtain ⟨c, pr, rfl⟩ : ∃ c pr, pat = c :: pr := by
    cases pat with
    | nil => exact absurd rfl hp
    | cons c pr => exact ⟨c, pr, rfl⟩
  rw [show (c :: pr) ++ t = c :: (pr ++ t) from rfl]
  show (if (c :: pr).isPrefixOf (c :: (pr ++ t)) = true then
      rep ++ (c :: (pr ++ t)).drop (c :: pr).length
    else c :: replaceFirstL (c :: pr) rep (pr ++ t)) = rep ++ t
  rw [if_pos (show (c :: pr).isPrefixOf (c :: (pr ++ t)) = true from
    List.isPrefixOf_iff_prefix.mpr ⟨t, rfl⟩)]
  rw [show c :: (pr ++ t) = (c :: pr) ++ t from rfl, List.drop_left]

theorem rf_append (pat rep : List Char) :
    ∀ (a b : List Char), ¬ pat <:+: a → safeBoundary pat a →
      replaceFirstL pat rep (a ++ b) = a ++ replaceFirstL pat rep b := by
  intro a
  induction a with
  | nil => intro b _ _; rfl
  | cons c cs ih =>
    intro b ha hsb
    have h1 : ¬ pat <+: (c :: (cs ++ b)) := by
      intro hx
      exact ha ((prefix_through pat (c :: cs) b hsb (by simp)).mp
        (by rw [show (c :: cs) ++ b = c :: (cs ++ b) from rfl]; exact hx)).isInfix
    rw [show (c :: cs) ++ b = c :: (cs ++ b) from rfl]
    show (if pat.isPrefixOf (c :: (cs ++ b)) then
        rep ++ (c :: (cs ++ b)).drop pat.length
      else c :: replaceFirstL pat rep (cs ++ b)) = (c :: cs) ++ replaceFirstL pat rep b
    rw [if_neg (fun hx => h1 (List.isPrefixOf_iff_prefix.mp hx))]
    rw [ih b (fun hi => ha (List.infix_cons hi)) (sb_mono pat _ _ hsb (List.suffix_cons c cs))]
    rfl

/-! ### Character facts about serialized attributes -/

theorem attrStr_shape (a : Attr) :
    attrStr a = (' ' :: (a.name ++ '=' :: '"' :: a.value)) ++ ['"'] := by
  simp [attrStr, attrText]

theorem attrStr_last (a : Attr) : (attrStr a).getLast? = some '"' := by
  rw [attrStr_shape]
  exact List.getLast?_concat _

theorem attrStr_ne_nil (a : Attr) : attrStr a ≠ [] := by
  simp [attrStr, attrText]

theorem attrsStr_cons (a : Attr) (l : List Attr) :
    attrsStr (a :: l) = attrStr a ++ attrsStr l := by
  simp [attrsStr]

theorem attrsStr_nil : attrsStr [] = [] := rfl

theorem attrsStr_append (l1 l2 : List Attr) :
    attrsStr (l1 ++ l2) = attrsStr l1 ++ attrsStr l2 := by
  simp [attrsStr]

theorem attrsStr_last (l : List Attr) (h : l ≠ []) :
    (attrsStr l).getLast? = some '"' := by
  induction l with
  | nil => exact absurd rfl h
  | cons a l2 ih =>
    rw [attrsStr_cons]
    cases l2 with
    | nil => simpa [attrsStr] using attrStr_last a
    | cons b l3 =>
      rw [List.getLast?_append_of_ne_nil (attrStr a)
        (by rw [attrsStr_cons]; exact fun hx =>
          attrStr_ne_nil b (List.append_eq_nil.mp hx).1)]
      exact ih (by simp)

theorem sb_attrsStr (pat : List Char) (l : List Attr) (hq : '"' ∉ pat.dropLast) :
    safeBoundary pat (attrsStr l) := by
  cases l with
  | nil => exact sb_nil pat
  | cons a l2 =>
    exact sb_of_getLast pat _ '"' (attrsStr_last (a :: l2) (by simp)) hq

theorem mem_attrStr (a : Attr) (c : Char) (h : c ∈ attrStr a) :
    c = ' ' ∨ c = '=' ∨ c = '"' ∨ c ∈ a.name ∨ c ∈ a.value := by
  unfold attrStr attrText at h
  rcases List.mem_cons.mp h with h | h
  · exact Or.inl h
  rcases List.mem_append.mp h with h | h
  · exact Or.inr (Or.inr (Or.inr (Or.inl h)))
  rcases List.mem_cons.mp h with h | h
  · exact Or.inr (Or.inl h)
  rcases List.mem_cons.mp h with h | h
  · exact Or.inr (Or.inr (Or.inl h))
  rcases List.mem_append.mp h with h | h
  · exact Or.inr (Or.inr (Or.inr (Or.inr h)))
  · exact Or.inr (Or.inr (Or.inl (List.mem_singleton.mp h)))

theorem mem_attrsStr (l : List Attr) (c : Char) (h : c ∈ attrsStr l) :
    ∃ a ∈ l, c ∈ attrStr a := by
  unfold attrsStr at h
  rw [List.mem_flatten] at h
  obtain ⟨L, hL, hc⟩ := h
  obtain ⟨a, ha, rfl⟩ := List.mem_map.mp hL
  exact ⟨a, ha, hc⟩

theorem cleanName_no_mark (n : List Char) (h : cleanName n) :
    ∀ c ∈ n, c ≠ '<' ∧ c ≠ '>' ∧ c ≠ '"' ∧ c ≠ '=' ∧ c ≠ '_' := by
  intro c hc
  rcases h.2 c hc with h1 | h1 <;>
    refine ⟨?_, ?_, ?_, ?_, ?_⟩ <;>
    (intro he; rw [he] at h1; exact absurd h1 (by decide))

theorem geomName_no_mark (a : Attr) (h : geomAttrOK a) :
    ∀ c ∈ a.name, c ≠ '<' ∧ c ≠ '>' ∧ c ≠ '"' ∧ c ≠ '=' := by
  intro c hc
  rcases h.1 with h1 | h1 | h1 | h1 | h1
  · rw [h1] at hc
    exact (by decide : ∀ x ∈ "_x".data, x ≠ '<' ∧ x ≠ '>' ∧ x ≠ '"' ∧ x ≠ '=') c hc
  · rw [h1] at hc
    exact (by decide : ∀ x ∈ "_y".data, x ≠ '<' ∧ x ≠ '>' ∧ x ≠ '"' ∧ x ≠ '=') c hc
  · rw [h1] at hc
    exact (by decide : ∀ x ∈ "_width".data, x ≠ '<' ∧ x ≠ '>' ∧ x ≠ '"' ∧ x ≠ '=') c hc
  · rw [h1] at hc
    exact (by decide : ∀ x ∈ "_height".data, x ≠ '<' ∧ x ≠ '>' ∧ x ≠ '"' ∧ x ≠ '=') c hc
  · have := cleanName_no_mark a.name h1 c hc
    exact ⟨this.1, this.2.1, this.2.2.1, this.2.2.2.1⟩

theorem bad_not_mem_attrsStr (l : List Attr) (ch : Char)
    (hsp : ch ≠ ' ' ∧ ch ≠ '=' ∧ ch ≠ '"')
    (h : ∀ a ∈ l, (∀ c ∈ a.name, c ≠ ch) ∧ (∀ c ∈ a.value, c ≠ ch)) :
    ch ∉ attrsStr l := by
  intro hc
  obtain ⟨a, ha, hca⟩ := mem_attrsStr l ch hc
  rcases mem_attrStr a ch hca with h1 | h1 | h1 | h1 | h1
  · exact hsp.1 h1
  · exact hsp.2.1 h1
  · exact hsp.2.2 h1
  · exact (h a ha).1 ch h1 rfl
  · exact (h a ha).2 ch h1 rfl

theorem lt_not_mem_attrsStr (l : List Attr) (h : ∀ a ∈ l, cleanAttr a) :
    '<' ∉ attrsStr l :=
  bad_not_mem_attrsStr l '<' (by decide) (fun a ha =>
    ⟨fun c hc => (cleanName_no_mark a.name (h a ha).1 c hc).1,
     fun c hc => ((h a ha).2 c hc).1⟩)

theorem gt_not_mem_attrsStr (l : List Attr) (h : ∀ a ∈ l, cleanAttr a) :
    '>' ∉ attrsStr l :=
  bad_not_mem_attrsStr l '>' (by decide) (fun a ha =>
    ⟨fun c hc => (cleanName_no_mark a.name (h a ha).1 c hc).2.1,
     fun c hc => ((h a ha).2 c hc).2.1⟩)

theorem lt_not_mem_geomStr (l : List Attr) (h : ∀ a ∈ l, geomAttrOK a) :
    '<' ∉ attrsStr l :=
  bad_not_mem_attrsStr l '<' (by decide) (fun a ha =>
    ⟨fun c hc => (geomName_no_mark a (h a ha) c hc).1,
     fun c hc => ((h a ha).2 c hc).1⟩)

theorem gt_not_mem_geomStr (l : List Attr) (h : ∀ a ∈ l, geomAttrOK a) :
    '>' ∉ attrsStr l :=
  bad_not_mem_attrsStr l '>' (by decide) (fun a ha =>
    ⟨fun c hc => (geomName_no_mark a (h a ha) c hc).2.1,
     fun c hc => ((h a ha).2 c hc).2.1⟩)

/-! ### No spurious occurrence of the rewrite patterns inside attributes -/

theorem eq_of_append_sep (ch : Char) :
    ∀ (a c b d : List Char), a ++ ch :: b = c ++ ch :: d → ch ∉ a → ch ∉ c →
      a = c ∧ b = d := by
  intro a
  induction a with
  | nil =>
    intro c b d h ha hc
    cases c with
    | nil => simpa using h
    | cons x c2 =>
      rw [List.nil_append] at h
      have hx : ch = x := (List.cons.inj h).1
      exact absurd (by rw [hx]; exact List.mem_cons_self x c2) hc
  | cons y a2 ih =>
    intro c b d h ha hc
    cases c with
    | nil =>
      rw [List.nil_append] at h
      have hy : y = ch := (List.cons.inj h).1
      exact absurd (by rw [← hy]; exact List.mem_cons_self y a2) ha
    | cons x c2 =>
      obtain ⟨hyx, h2⟩ := List.cons.inj h
      obtain ⟨h3, h4⟩ := ih c2 b d h2 (fun hm => ha (List.mem_cons_of_mem y hm))
        (fun hm => hc (List.mem_cons_of_mem x hm))
      exact ⟨by rw [hyx, h3], h4⟩

theorem not_eq_mem_value (v : List Char) (hv : cleanValue v) (ch : Char)
    (h : ch = '<' ∨ ch = '>' ∨ ch = '"' ∨ ch = '=') : ch ∉ v := by
  intro hc
  rcases h with rfl | rfl | rfl | rfl
  · exact (hv _ hc).1 rfl
  · exact (hv _ hc).2.1 rfl
  · exact (hv _ hc).2.2.1 rfl
  · exact (hv _ hc).2.2.2 rfl

theorem not_underscore_infix_attrStr (w : List Char) (a : Attr)
    (hw : '=' ∉ w)
    (hn : '=' ∉ a.name)
    (hv : cleanValue a.value)
    (hns : ¬ w <:+ (' ' :: a.name)) :
    ¬ ((w ++ '=' :: '"' :: []) <:+: attrStr a) := by
  intro h
  obtain ⟨s, t, hst⟩ := h
  have hveq : '=' ∉ a.value := not_eq_mem_value a.value hv '=' (by simp)
  have hst2 : (s ++ w) ++ '=' :: ('"' :: t) =
      (' ' :: a.name) ++ '=' :: ('"' :: (a.value ++ ['"'])) := by
    have hsh : attrStr a = (' ' :: a.name) ++ '=' :: ('"' :: (a.value ++ ['"'])) := by
      simp [attrStr, attrText]
    rw [← hsh, ← hst]
    simp [List.append_assoc]
  have h4 := congrArg (List.count '=') hst2
  simp only [List.count_append, List.count_cons] at h4
  rw [List.count_eq_zero.mpr hn, List.count_eq_zero.mpr hveq,
      List.count_eq_zero.mpr hw] at h4
  simp at h4
  have h5 : '=' ∉ s ++ w := by
    intro hm
    rcases List.mem_append.mp hm with hm | hm
    · have hz : List.count '=' s = 0 := by omega
      exact absurd hm (List.count_eq_zero.mp hz)
    · exact hw hm
  obtain ⟨h6, _⟩ := eq_of_append_sep '=' (s ++ w) (' ' :: a.name) ('"' :: t)
    ('"' :: (a.value ++ ['"'])) hst2 h5
    (by
      intro hm
      rcases List.mem_cons.mp hm with hm | hm
      · exact absurd hm.symm (by decide)
      · exact hn hm)
  exact hns ⟨s, h6⟩

theorem suffix_concat_inj (u v : List Char) (c : Char) (h : (u ++ [c]) <:+ (v ++ [c])) :
    u <:+ v := by
  have h1 : (u ++ [c]).reverse <+: (v ++ [c]).reverse := List.reverse_prefix.mpr h
  simp only [List.reverse_append, List.reverse_cons, List.reverse_nil, List.nil_append,
    List.singleton_append] at h1
  obtain ⟨t, ht⟩ := h1
  have h2 : u.reverse <+: v.reverse := ⟨t, (List.cons.inj ht).2⟩
  exact List.reverse_prefix.mp (by simpa using h2)

theorem attrStr_no_asquote_suffix (a : Attr)
    (hv : cleanValue a.value) :
    ¬ ("as=\"".data <:+ attrStr a) := by
  intro h
  rw [attrStr_shape] at h
  have h0 : "as=".data ++ ['"'] <:+ (' ' :: (a.name ++ '=' :: '"' :: a.value)) ++ ['"'] := by
    rw [show "as=".data ++ ['"'] = "as=\"".data by decide]
    exact h
  have h1 := suffix_concat_inj _ _ '"' h0
  cases hval : a.value with
  | nil =>
    rw [hval] at h1
    have h2 := suffix_getLast_eq _ _ h1 (by decide)
    have h3 : (' ' :: (a.name ++ '=' :: '"' :: ([] : List Char))).getLast? = some '"' := by
      rw [show ' ' :: (a.name ++ '=' :: '"' :: ([] : List Char)) =
        ((' ' :: a.name) ++ ['=']) ++ ['"'] by simp]
      exact List.getLast?_concat _
    rw [h3] at h2
    exact absurd (Option.some.inj (h2.trans (by decide) : some '"' = some '=')) (by decide)
  | cons v vs =>
    rw [hval] at h1
    have h2 := suffix_getLast_eq _ _ h1 (by decide)
    have h3 : (' ' :: (a.name ++ '=' :: '"' :: (v :: vs))).getLast? = (v :: vs).getLast? := by
      rw [show ' ' :: (a.name ++ '=' :: '"' :: (v :: vs)) =
        ((' ' :: a.name) ++ ['=', '"']) ++ (v :: vs) by simp]
      exact List.getLast?_append_of_ne_nil _ (by simp)
    rw [h3] at h2
    have h4 : '=' ∈ a.value := by
      rw [hval]
      have h2b : (v :: vs).getLast? = some '=' := h2.trans (by decide)
      rw [List.getLast?_eq_getLast _ (by simp)] at h2b
      exact (Option.some.inj h2b) ▸ List.getLast_mem (by simp)
    exact (hv '=' h4).2.2.2 rfl

theorem prefix_getLast_eq_getElem (s t : List Char) (h : s <+: t) (hne : s ≠ []) :
    t[s.length - 1]? = s.getLast? := by
  obtain ⟨r, rfl⟩ := h
  rw [List.getElem?_append_left (by
    have := List.length_pos.mpr hne
    omega)]
  rw [List.getLast?_eq_getElem?]

theorem sb_disc_attrStr (a : Attr) (hv : cleanValue a.value) :
    safeBoundary "as=\"style\"".data (attrStr a) := by
  intro s hs hne hlt hpre
  have hql : s.getLast? = some '"' := by
    have h0 := suffix_getLast_eq s (attrStr a) hs hne
    rw [attrStr_last] at h0
    exact h0.symm
  have hj := prefix_getLast_eq_getElem s _ hpre hne
  rw [hql] at hj
  have h10 : ("as=\"style\"".data).length = 10 := by decide
  have hlen : s.length - 1 < 9 := by
    rw [h10] at hlt
    have := List.length_pos.mpr hne
    omega
  have hk : s.length - 1 = 3 := by
    have hd : ∀ j, j < 9 → (("as=\"style\"".data)[j]? = some '"' → j = 3) := by decide
    exact hd _ hlen hj
  have hslen : s.length = 4 := by
    have := List.length_pos.mpr hne
    omega
  have hs4 : s = "as=\"".data := by
    have h5 := List.prefix_iff_eq_take.mp hpre
    rw [hslen] at h5
    rw [h5]
    decide
  rw [hs4] at hs
  exact attrStr_no_asquote_suffix a hv hs

theorem not_disc_infix_attrStr (a : Attr)
    (hn : '=' ∉ a.name) (hv : cleanValue a.value)
    (hno : ¬ ("as".data <:+ a.name ∧ a.value = "style".data)) :
    ¬ ("as=\"style\"".data <:+: attrStr a) := by
  intro h
  obtain ⟨s, t, hst⟩ := h
  have hveq : '=' ∉ a.value := not_eq_mem_value a.value hv '=' (by simp)
  have hqv : '"' ∉ a.value := not_eq_mem_value a.value hv '"' (by simp)
  have hst2 : (s ++ "as".data) ++ '=' :: ('"' :: ("style".data ++ '"' :: t)) =
      (' ' :: a.name) ++ '=' :: ('"' :: (a.value ++ '"' :: [])) := by
    have hsh : attrStr a = (' ' :: a.name) ++ '=' :: ('"' :: (a.value ++ '"' :: [])) := by
      simp [attrStr, attrText]
    rw [← hsh, ← hst]
    rw [show "as=\"style\"".data = "as".data ++ '=' :: ('"' :: ("style".data ++ ['"'])) by decide]
    simp [List.append_assoc]
  have h4 := congrArg (List.count '=') hst2
  simp only [List.count_append, List.count_cons] at h4
  rw [List.count_eq_zero.mpr hn, List.count_eq_zero.mpr hveq] at h4
  simp at h4
  have h5 : '=' ∉ s ++ "as".data := by
    intro hm
    rcases List.mem_append.mp hm with hm | hm
    · have hz : List.count '=' s = 0 := by omega
      exact absurd hm (List.count_eq_zero.mp hz)
    · exact absurd hm (by decide)
  obtain ⟨h6, h7⟩ := eq_of_append_sep '=' (s ++ "as".data) (' ' :: a.name) _ _ hst2 h5
    (by
      intro hm
      rcases List.mem_cons.mp hm with hm | hm
      · exact absurd hm.symm (by decide)
      · exact hn hm)
  have h8 : "style".data ++ '"' :: t = a.value ++ '"' :: [] := (List.cons.inj h7).2
  obtain ⟨h9, _⟩ := eq_of_append_sep '"' ("style".data) a.value t [] h8 (by decide) hqv
  apply hno
  constructor
  · have hsfx : "as".data <:+ (' ' :: a.name) := ⟨s, h6⟩
    rcases List.suffix_cons_iff.mp hsfx with h11 | h11
    · exfalso
      have h12 : some 'a' = some ' ' := congrArg List.head? h11
      exact absurd (Option.some.inj h12) (by decide)
    · exact h11
  · exact h9.symm

theorem not_disc_infix_attrsStr (l : List Attr) (h : ∀ p ∈ l, styleAttrOK p) :
    ¬ ("as=\"style\"".data <:+: attrsStr l) := by
  induction l with
  | nil =>
    intro hx
    rw [attrsStr_nil] at hx
    have := hx.sublist.length_le
    simp at this
  | cons a l2 ih =>
    rw [attrsStr_cons]
    have ha := h a (List.mem_cons_self a l2)
    have hn : '=' ∉ a.name :=
      fun hm => (cleanName_no_mark a.name ha.1.1 '=' hm).2.2.2.1 rfl
    exact not_infix_append _ _ _ (sb_disc_attrStr a ha.1.2)
      (not_disc_infix_attrStr a hn ha.1.2 ha.2.2)
      (ih (fun p hp => h p (List.mem_cons_of_mem a hp)))

theorem sb_disc_attrsStr (l : List Attr) (h : ∀ p ∈ l, styleAttrOK p) :
    safeBoundary "as=\"style\"".data (attrsStr l) := by
  induction l with
  | nil => exact sb_nil _
  | cons a l2 ih =>
    rw [attrsStr_cons]
    have ha := h a (List.mem_cons_self a l2)
    exact sb_append _ _ _ (sb_disc_attrStr a ha.1.2)
      (ih (fun p hp => h p (List.mem_cons_of_mem a hp)))

/-! ### The eight literal passes on a serialized cell -/

theorem head?_append_left (w r : List Char) (h : w ≠ []) : (w ++ r).head? = w.head? := by
  cases w with
  | nil => exact absurd rfl h
  | cons c cs => rfl

theorem not_suffix_of_underscore (w n : List Char) (hwh : w.head? = some '_')
    (hn : cleanName n) : ¬ w <:+ (' ' :: n) := by
  intro hsf
  have h1 : '_' ∈ w := by
    cases w with
    | nil => exact Option.noConfusion hwh
    | cons c cs =>
      rw [show c = '_' from Option.some.inj hwh]
      exact List.mem_cons_self _ _
  have h2 := hsf.subset h1
  rcases List.mem_cons.mp h2 with h3 | h3
  · exact absurd h3 (by decide)
  · exact (cleanName_no_mark n hn '_' h3).2.2.2.2 rfl

theorem not_underscore_infix_attrsStr (w : List Char) (hw : '=' ∉ w)
    (hwq : '"' ∉ w) (hwh : w.head? = some '_')
    (l : List Attr) (h : ∀ a ∈ l, cleanAttr a) :
    ¬ ((w ++ '=' :: '"' :: []) <:+: attrsStr l) := by
  induction l with
  | nil =>
    intro hx
    rw [attrsStr_nil] at hx
    have := hx.sublist.length_le
    simp [List.length_append] at this
  | cons a l2 ih =>
    rw [attrsStr_cons]
    have ha := h a (List.mem_cons_self a l2)
    have hn : '=' ∉ a.name :=
      fun hm => (cleanName_no_mark a.name ha.1 '=' hm).2.2.2.1 rfl
    have hns : ¬ w <:+ (' ' :: a.name) := not_suffix_of_underscore w a.name hwh ha.1
    exact not_infix_append _ _ _
      (sb_of_getLast _ _ '"' (attrStr_last a) (by
        rw [List.dropLast_append_of_ne_nil w (by simp)]
        intro hm
        rcases List.mem_append.mp hm with hm | hm
        · exact hwq hm
        · exact absurd hm (by decide)))
      (not_underscore_infix_attrStr w a hw hn ha.2 hns)
      (ih (fun p hp => h p (List.mem_cons_of_mem a hp)))

theorem ra_underscore_attrsStr (w rep : List Char) (hw : '=' ∉ w)
    (hwq : '"' ∉ w) (hwh : w.head? = some '_')
    (l : List Attr) (h : ∀ a ∈ l, cleanAttr a) :
    replaceAllL (w ++ '=' :: '"' :: []) rep (attrsStr l) = attrsStr l :=
  ra_eq_self _ _ _ (not_underscore_infix_attrsStr w hw hwq hwh l h)

theorem ra_ren_attrStr_hit (w w2 v : List Char) (hv : cleanValue v)
    (hwne : w ≠ []) (hwh : w.head? = some '_') :
    replaceAllL (w ++ '=' :: '"' :: []) (w2 ++ '=' :: '"' :: [])
      (attrStr ⟨w, v⟩) = attrStr ⟨w2, v⟩ := by
  show replaceAllL _ _ (' ' :: (w ++ '=' :: '"' :: (v ++ ['"']))) = _
  rw [ra_cons_neg _ _ _ _ (by
    intro hp
    have hd : (w ++ '=' :: '"' :: []).head? = some '_' := by
      rw [head?_append_left w _ hwne]
      exact hwh
    have h2 := (prefix_head_eq _ _ hp (by simp)).trans hd
    exact absurd (Option.some.inj h2) (by decide))]
  rw [show w ++ '=' :: '"' :: (v ++ ['"']) = (w ++ '=' :: '"' :: []) ++ (v ++ ['"']) by simp]
  rw [ra_head _ _ _ (by simp)]
  rw [ra_eq_self _ _ _ (not_infix_of_mem _ _ '=' (by simp) (by
    intro hm
    rcases List.mem_append.mp hm with hm | hm
    · exact (hv '=' hm).2.2.2 rfl
    · exact absurd (List.mem_singleton.mp hm) (by decide)))]
  show ' ' :: ((w2 ++ '=' :: '"' :: []) ++ (v ++ ['"'])) = attrStr ⟨w2, v⟩
  simp [attrStr, attrText]

theorem ra_geom_attrsStr (w w2 : List Char)
    (hw : '=' ∉ w) (hwq : '"' ∉ w) (hwh : w.head? = some '_') (hwne : w ≠ [])
    (l : List Attr)
    (h : ∀ a ∈ l, geomAttrOK a)
    (hcase : ∀ a ∈ l, a.name = w ∨ ¬ w <:+ (' ' :: a.name)) :
    replaceAllL (w ++ '=' :: '"' :: []) (w2 ++ '=' :: '"' :: [])
      (attrsStr l) = attrsStr (l.map (ren w w2)) := by
  induction l with
  | nil => rfl
  | cons a l2 ih =>
    rw [attrsStr_cons, List.map_cons, attrsStr_cons]
    rw [ra_append _ _ (by simp) _ _ (sb_of_getLast _ _ '"' (attrStr_last a) (by
      rw [List.dropLast_append_of_ne_nil w (by simp)]
      intro hm
      rcases List.mem_append.mp hm with hm | hm
      · exact hwq hm
      · exact absurd hm (by decide)))]
    have ha := h a (List.mem_cons_self a l2)
    congr 1
    · rcases hcase a (List.mem_cons_self a l2) with hname | hns
      · rw [show a = (⟨w, a.value⟩ : Attr) from by
          cases a with
          | mk nm vl => simp at hname; rw [hname]]
        rw [ra_ren_attrStr_hit w w2 a.value ha.2 hwne hwh]
        show attrStr ⟨w2, a.value⟩ = attrStr (ren w w2 ⟨w, a.value⟩)
        unfold ren
        rw [if_pos rfl]
      · have hren : ren w w2 a = a := by
          unfold ren
          rw [if_neg (by
            intro he
            apply hns
            rw [he]
            exact List.suffix_cons ' ' w)]
        rw [hren]
        have hn : '=' ∉ a.name := fun hm => (geomName_no_mark a ha '=' hm).2.2.2 rfl
        exact ra_eq_self _ _ _ (not_underscore_infix_attrStr w a hw hn ha.2 hns)
    · exact ih (fun p hp => h p (List.mem_cons_of_mem a hp))
        (fun p hp => hcase p (List.mem_cons_of_mem a hp))

theorem genCell_shape_selfClosed (t1 t2 t3 : List Char) (G : List Attr → List Attr)
    (attrs : List Attr) :
    genCell t1 t2 t3 G (.selfClosed attrs) = t1 ++ attrsStr attrs ++ "/>".data := rfl

theorem ra_genCell (pat rep t1 t2 t3 t1' t2' t3' : List Char)
    (G G' : List Attr → List Attr)
    (hne : pat ≠ []) (hq : '"' ∉ pat.dropLast)
    (h1 : replaceAllL pat rep t1 = t1') (h2 : replaceAllL pat rep t2 = t2')
    (h3 : replaceAllL pat rep t3 = t3')
    (hGt : replaceAllL pat rep ">".data = ">".data)
    (hSG : replaceAllL pat rep "/>".data = "/>".data)
    (hOb : replaceAllL pat rep "<Object".data = "<Object".data)
    (hDisc : replaceAllL pat rep " as=\"style\"".data = " as=\"style\"".data)
    (hA : ∀ l : List Attr, (∀ a ∈ l, cleanAttr a) →
      replaceAllL pat rep (attrsStr l) = attrsStr l)
    (hG : ∀ l : List Attr, (∀ a ∈ l, geomAttrOK a) →
      replaceAllL pat rep (attrsStr (G l)) = attrsStr (G' l))
    (sb1 : safeBoundary pat t1) (sb3 : safeBoundary pat t3)
    (sbGt : safeBoundary pat ">".data) (sbSG : safeBoundary pat "/>".data)
    (sbOb : safeBoundary pat "<Object".data)
    (sbDisc : safeBoundary pat " as=\"style\"".data)
    (c : NativeCell) (hc : cellOK c) :
    replaceAllL pat rep (genCell t1 t2 t3 G c) = genCell t1' t2' t3' G' c := by
  cases c with
  | selfClosed attrs =>
    show replaceAllL pat rep (t1 ++ attrsStr attrs ++ "/>".data) = _
    rw [List.append_assoc,
        ra_append pat rep hne t1 _ sb1,
        ra_append pat rep hne _ _ (sb_attrsStr pat attrs hq),
        h1, hA attrs hc, hSG]
    show _ = t1' ++ attrsStr attrs ++ "/>".data
    rw [List.append_assoc]
  | plain attrs geom =>
    show replaceAllL pat rep
      (t1 ++ attrsStr attrs ++ ">".data ++ t3 ++ attrsStr (G geom) ++ "/>".data ++ t2) = _
    simp only [List.append_assoc]
    rw [ra_append pat rep hne t1 _ sb1,
        ra_append pat rep hne _ _ (sb_attrsStr pat attrs hq),
        ra_append pat rep hne _ _ sbGt,
        ra_append pat rep hne t3 _ sb3,
        ra_append pat rep hne _ _ (sb_attrsStr pat (G geom) hq),
        ra_append pat rep hne _ _ sbSG,
        h1, hA attrs hc.1, hGt, h3, hG geom hc.2, hSG, h2]
    show _ = t1' ++ attrsStr attrs ++ ">".data ++ t3' ++ attrsStr (G' geom) ++ "/>".data ++ t2'
    simp only [List.append_assoc]
  | styled attrs geom pre post =>
    show replaceAllL pat rep
      (t1 ++ attrsStr attrs ++ ">".data ++ t3 ++ attrsStr (G geom) ++ "/>".data ++
       "<Object".data ++ attrsStr pre ++ " as=\"style\"".data ++ attrsStr post ++
       "/>".data ++ t2) = _
    simp only [List.append_assoc]
    rw [ra_append pat rep hne t1 _ sb1,
        ra_append pat rep hne _ _ (sb_attrsStr pat attrs hq),
        ra_append pat rep hne _ _ sbGt,
        ra_append pat rep hne t3 _ sb3,
        ra_append pat rep hne _ _ (sb_attrsStr pat (G geom) hq),
        ra_append pat rep hne _ _ sbSG,
        ra_append pat rep hne _ _ sbOb,
        ra_append pat rep hne _ _ (sb_attrsStr pat pre hq),
        ra_append pat rep hne _ _ sbDisc,
        ra_append pat rep hne _ _ (sb_attrsStr pat post hq),
        ra_append pat rep hne _ _ sbSG,
        h1, hA attrs hc.1, hGt, h3, hG geom hc.2.1, hSG, hOb,
        hA pre (fun p hp => (hc.2.2.1 p hp).1), hDisc, hA post hc.2.2.2, h2]
    show _ = t1' ++ attrsStr attrs ++ ">".data ++ t3' ++ attrsStr (G' geom) ++ "/>".data ++
       "<Object".data ++ attrsStr pre ++ " as=\"style\"".data ++ attrsStr post ++
       "/>".data ++ t2'
    simp only [List.append_assoc]

/-! ### Geometry renaming facts -/

theorem hcase_x (a : Attr) (h : geomAttrOK a) :
    a.name = "_x".data ∨ ¬ "_x".data <:+ (' ' :: a.name) := by
  rcases h.1 with h1 | h1 | h1 | h1 | h1
  · exact Or.inl h1
  · right; rw [h1]; decide
  · right; rw [h1]; decide
  · right; rw [h1]; decide
  · right; exact not_suffix_of_underscore _ _ (by decide) h1

theorem hcase_y (a : Attr) (h : geomAttrOK a) :
    a.name = "_y".data ∨ ¬ "_y".data <:+ (' ' :: a.name) := by
  rcases h.1 with h1 | h1 | h1 | h1 | h1
  · right; rw [h1]; decide
  · exact Or.inl h1
  · right; rw [h1]; decide
  · right; rw [h1]; decide
  · right; exact not_suffix_of_underscore _ _ (by decide) h1

theorem hcase_w (a : Attr) (h : geomAttrOK a) :
    a.name = "_width".data ∨ ¬ "_width".data <:+ (' ' :: a.name) := by
  rcases h.1 with h1 | h1 | h1 | h1 | h1
  · right; rw [h1]; decide
  · right; rw [h1]; decide
  · exact Or.inl h1
  · right; rw [h1]; decide
  · right; exact not_suffix_of_underscore _ _ (by decide) h1

theorem hcase_h (a : Attr) (h : geomAttrOK a) :
    a.name = "_height".data ∨ ¬ "_height".data <:+ (' ' :: a.name) := by
  rcases h.1 with h1 | h1 | h1 | h1 | h1
  · right; rw [h1]; decide
  · right; rw [h1]; decide
  · right; rw [h1]; decide
  · exact Or.inl h1
  · right; exact not_suffix_of_underscore _ _ (by decide) h1

theorem geomOK_map_ren (w w2 : List Char) (hcl : cleanName w2)
    (l : List Attr) (h : ∀ a ∈ l, geomAttrOK a) :
    ∀ a ∈ l.map (ren w w2), geomAttrOK a := by
  intro a ha
  obtain ⟨b, hb, rfl⟩ := List.mem_map.mp ha
  unfold ren
  by_cases hbw : b.name = w
  · rw [if_pos hbw]
    exact ⟨Or.inr (Or.inr (Or.inr (Or.inr hcl))), (h b hb).2⟩
  · rw [if_neg hbw]
    exact h b hb

theorem ren_chain (a : Attr) (h : geomAttrOK a) :
    ren "_height".data "height".data (ren "_width".data "width".data
      (ren "_y".data "y".data (ren "_x".data "x".data a))) = convGeomAttr a := by
  have hne : ∀ w : List Char, '_' ∈ w → cleanName a.name → a.name ≠ w := by
    intro w hw hcl he
    rw [he] at hcl
    exact (cleanName_no_mark w hcl '_' hw).2.2.2.2 rfl
  rcases h.1 with h1 | h1 | h1 | h1 | h1
  · cases a with
    | mk nm vl =>
      simp only at h1
      rw [h1]
      simp [ren, convGeomAttr, stripGeomName]
  · cases a with
    | mk nm vl =>
      simp only at h1
      rw [h1]
      simp [ren, convGeomAttr, stripGeomName]
  · cases a with
    | mk nm vl =>
      simp only at h1
      rw [h1]
      simp [ren, convGeomAttr, stripGeomName]
  · cases a with
    | mk nm vl =>
      simp only at h1
      rw [h1]
      simp [ren, convGeomAttr, stripGeomName]
  · have h2 := hne "_x".data (by decide) h1
    have h3 := hne "_y".data (by decide) h1
    have h4 := hne "_width".data (by decide) h1
    have h5 := hne "_height".data (by decide) h1
    simp [ren, convGeomAttr, stripGeomName, h2, h3, h4, h5]

theorem map_ren_chain (l : List Attr) (h : ∀ a ∈ l, geomAttrOK a) :
    (((l.map (ren "_x".data "x".data)).map (ren "_y".data "y".data)).map
      (ren "_width".data "width".data)).map (ren "_height".data "height".data) =
    l.map convGeomAttr := by
  rw [List.map_map, List.map_map, List.map_map]
  exact List.map_congr_left (fun a ha => by
    simp only [Function.comp]
    exact ren_chain a (h a ha))

/-! ### The eight passes on the whole document -/

theorem cellStr_eq_gen (c : NativeCell) :
    cellStr c = genCell "<Cell".data "</Cell>".data "<Geometry".data (fun l => l) c := by
  cases c <;> rfl

theorem genCell_last (t1 t2 t3 : List Char) (G : List Attr → List Attr)
    (h2 : t2.getLast? = some '>') (c : NativeCell) :
    (genCell t1 t2 t3 G c).getLast? = some '>' := by
  have h2ne : t2 ≠ [] := by
    intro h0
    rw [h0] at h2
    exact Option.noConfusion h2
  cases c with
  | selfClosed attrs =>
    show ((t1 ++ attrsStr attrs) ++ "/>".data).getLast? = some '>'
    rw [List.getLast?_append_of_ne_nil _ (by decide)]
    decide
  | plain attrs geom =>
    show (_ ++ t2).getLast? = some '>'
    rw [List.getLast?_append_of_ne_nil _ h2ne]
    exact h2
  | styled attrs geom pre post =>
    show (_ ++ t2).getLast? = some '>'
    rw [List.getLast?_append_of_ne_nil _ h2ne]
    exact h2

theorem sb_flatten (pat : List Char) (L : List (List Char))
    (h : ∀ x ∈ L, safeBoundary pat x) : safeBoundary pat L.flatten := by
  induction L with
  | nil => exact sb_nil pat
  | cons x xs ih =>
    rw [List.flatten_cons]
    exact sb_append pat x xs.flatten (h x (by simp))
      (ih (fun y hy => h y (by simp [hy])))

theorem ra_doc (pat rep : List Char) (hne : pat ≠ []) (hgt : '>' ∉ pat.dropLast)
    (t1 t2 t3 t1' t2' t3' : List Char) (G G' : List Attr → List Attr)
    (h2last : t2.getLast? = some '>')
    (hcell : ∀ c, cellOK c →
      replaceAllL pat rep (genCell t1 t2 t3 G c) = genCell t1' t2' t3' G' c)
    (hwo : replaceAllL pat rep "<GraphDataModel>".data = "<GraphDataModel>".data)
    (hwc : replaceAllL pat rep "</GraphDataModel>".data = "</GraphDataModel>".data)
    (cells : List NativeCell) (hcells : ∀ c ∈ cells, cellOK c) :
    replaceAllL pat rep
      ("<GraphDataModel>".data ++ (cells.map (genCell t1 t2 t3 G)).flatten ++
        "</GraphDataModel>".data) =
    "<GraphDataModel>".data ++ (cells.map (genCell t1' t2' t3' G')).flatten ++
      "</GraphDataModel>".data := by
  have hsbM : safeBoundary pat (cells.map (genCell t1 t2 t3 G)).flatten :=
    sb_flatten pat _ (by
      intro x hx
      obtain ⟨c, hcm, rfl⟩ := List.mem_map.mp hx
      exact sb_of_getLast pat _ '>' (genCell_last t1 t2 t3 G h2last c) hgt)
  rw [List.append_assoc,
      ra_append pat rep hne _ _ (sb_of_getLast pat _ '>' (by decide) hgt),
      ra_append pat rep hne _ _ hsbM,
      hwo, hwc,
      ra_chunks pat rep hne _ (by
        intro x hx
        obtain ⟨c, hcm, rfl⟩ := List.mem_map.mp hx
        exact sb_of_getLast pat _ '>' (genCell_last t1 t2 t3 G h2last c) hgt),
      List.map_map,
      List.map_congr_left (fun c hcm => by
        simp only [Function.comp]
        exact hcell c (hcells c hcm)),
      List.append_assoc]

theorem ra_st1_cell (c : NativeCell) (hc : cellOK c) :
    replaceAllL "<Cell".data "<mxCell".data
      (genCell "<Cell".data "</Cell>".data "<Geometry".data (fun l => l) c) =
    genCell "<mxCell".data "</Cell>".data "<Geometry".data (fun l => l) c :=
  ra_genCell "<Cell".data "<mxCell".data
    "<Cell".data "</Cell>".data "<Geometry".data
    "<mxCell".data "</Cell>".data "<Geometry".data
    (fun l => l) (fun l => l)
    (by decide) (by decide) (by decide) (by decide) (by decide) (by decide)
    (by decide) (by decide) (by decide)
    (fun l hl => ra_eq_self _ _ _
      (not_infix_of_mem _ _ '<' (by decide) (lt_not_mem_attrsStr l hl)))
    (fun l hl => ra_eq_self _ _ _
      (not_infix_of_mem _ _ '<' (by decide) (lt_not_mem_geomStr l hl)))
    (by decide) (by decide) (by decide) (by decide) (by decide) (by decide)
    c hc

theorem ra_st2_cell (c : NativeCell) (hc : cellOK c) :
    replaceAllL "</Cell>".data "</mxCell>".data
      (genCell "<mxCell".data "</Cell>".data "<Geometry".data (fun l => l) c) =
    genCell "<mxCell".data "</mxCell>".data "<Geometry".data (fun l => l) c :=
  ra_genCell "</Cell>".data "</mxCell>".data
    "<mxCell".data "</Cell>".data "<Geometry".data
    "<mxCell".data "</mxCell>".data "<Geometry".data
    (fun l => l) (fun l => l)
    (by decide) (by decide) (by decide) (by decide) (by decide) (by decide)
    (by decide) (by decide) (by decide)
    (fun l hl => ra_eq_self _ _ _
      (not_infix_of_mem _ _ '<' (by decide) (lt_not_mem_attrsStr l hl)))
    (fun l hl => ra_eq_self _ _ _
      (not_infix_of_mem _ _ '<' (by decide) (lt_not_mem_geomStr l hl)))
    (by decide) (by decide) (by decide) (by decide) (by decide) (by decide)
    c hc

theorem ra_st3_cell (c : NativeCell) (hc : cellOK c) :
    replaceAllL "<Geometry".data "<mxGeometry".data
      (genCell "<mxCell".data "</mxCell>".data "<Geometry".data (fun l => l) c) =
    genCell "<mxCell".data "</mxCell>".data "<mxGeometry".data (fun l => l) c :=
  ra_genCell "<Geometry".data "<mxGeometry".data
    "<mxCell".data "</mxCell>".data "<Geometry".data
    "<mxCell".data "</mxCell>".data "<mxGeometry".data
    (fun l => l) (fun l => l)
    (by decide) (by decide) (by decide) (by decide) (by decide) (by decide)
    (by decide) (by decide) (by decide)
    (fun l hl => ra_eq_self _ _ _
      (not_infix_of_mem _ _ '<' (by decide) (lt_not_mem_attrsStr l hl)))
    (fun l hl => ra_eq_self _ _ _
      (not_infix_of_mem _ _ '<' (by decide) (lt_not_mem_geomStr l hl)))
    (by decide) (by decide) (by decide) (by decide) (by decide) (by decide)
    c hc

theorem ra_st4_cell (c : NativeCell) (hc : cellOK c) :
    replaceAllL "</Geometry>".data "</mxGeometry>".data
      (genCell "<mxCell".data "</mxCell>".data "<mxGeometry".data (fun l => l) c) =
    genCell "<mxCell".data "</mxCell>".data "<mxGeometry".data (fun l => l) c :=
  ra_genCell "</Geometry>".data "</mxGeometry>".data
    "<mxCell".data "</mxCell>".data "<mxGeometry".data
    "<mxCell".data "</mxCell>".data "<mxGeometry".data
    (fun l => l) (fun l => l)
    (by decide) (by decide) (by decide) (by decide) (by decide) (by decide)
    (by decide) (by decide) (by decide)
    (fun l hl => ra_eq_self _ _ _
      (not_infix_of_mem _ _ '<' (by decide) (lt_not_mem_attrsStr l hl)))
    (fun l hl => ra_eq_self _ _ _
      (not_infix_of_mem _ _ '<' (by decide) (lt_not_mem_geomStr l hl)))
    (by decide) (by decide) (by decide) (by decide) (by decide) (by decide)
    c hc

theorem ra_st5_cell (c : NativeCell) (hc : cellOK c) :
    replaceAllL "_x=\"".data "x=\"".data
      (genCell "<mxCell".data "</mxCell>".data "<mxGeometry".data (fun l => l) c) =
    genCell "<mxCell".data "</mxCell>".data "<mxGeometry".data
      (fun l => l.map (ren "_x".data "x".data)) c := by
  rw [show "_x=\"".data = "_x".data ++ '=' :: '"' :: [] from by decide,
      show "x=\"".data = "x".data ++ '=' :: '"' :: [] from by decide]
  exact ra_genCell _ _
    "<mxCell".data "</mxCell>".data "<mxGeometry".data
    "<mxCell".data "</mxCell>".data "<mxGeometry".data
    (fun l => l) (fun l => l.map (ren "_x".data "x".data))
    (by decide) (by decide) (by decide) (by decide) (by decide) (by decide)
    (by decide) (by decide) (by decide)
    (fun l hl => ra_underscore_attrsStr "_x".data _ (by decide) (by decide) (by decide) l hl)
    (fun l hl => ra_geom_attrsStr "_x".data "x".data (by decide) (by decide)
      (by decide) (by decide) l hl (fun a ha => hcase_x a (hl a ha)))
    (by decide) (by decide) (by decide) (by decide) (by decide) (by decide)
    c hc

theorem ra_st6_cell (c : NativeCell) (hc : cellOK c) :
    replaceAllL "_y=\"".data "y=\"".data
      (genCell "<mxCell".data "</mxCell>".data "<mxGeometry".data
        (fun l => l.map (ren "_x".data "x".data)) c) =
    genCell "<mxCell".data "</mxCell>".data "<mxGeometry".data
      (fun l => (l.map (ren "_x".data "x".data)).map (ren "_y".data "y".data)) c := by
  rw [show "_y=\"".data = "_y".data ++ '=' :: '"' :: [] from by decide,
      show "y=\"".data = "y".data ++ '=' :: '"' :: [] from by decide]
  exact ra_genCell _ _
    "<mxCell".data "</mxCell>".data "<mxGeometry".data
    "<mxCell".data "</mxCell>".data "<mxGeometry".data
    (fun l => l.map (ren "_x".data "x".data))
    (fun l => (l.map (ren "_x".data "x".data)).map (ren "_y".data "y".data))
    (by decide) (by decide) (by decide) (by decide) (by decide) (by decide)
    (by decide) (by decide) (by decide)
    (fun l hl => ra_underscore_attrsStr "_y".data _ (by decide) (by decide) (by decide) l hl)
    (fun l hl => by
      have hl2 := geomOK_map_ren "_x".data "x".data (by decide) l hl
      exact ra_geom_attrsStr "_y".data "y".data (by decide) (by decide)
        (by decide) (by decide) _ hl2 (fun a ha => hcase_y a (hl2 a ha)))
    (by decide) (by decide) (by decide) (by decide) (by decide) (by decide)
    c hc

theorem ra_st7_cell (c : NativeCell) (hc : cellOK c) :
    replaceAllL "_width=\"".data "width=\"".data
      (genCell "<mxCell".data "</mxCell>".data "<mxGeometry".data
        (fun l => (l.map (ren "_x".data "x".data)).map (ren "_y".data "y".data)) c) =
    genCell "<mxCell".data "</mxCell>".data "<mxGeometry".data
      (fun l => ((l.map (ren "_x".data "x".data)).map (ren "_y".data "y".data)).map
        (ren "_width".data "width".data)) c := by
  rw [show "_width=\"".data = "_width".data ++ '=' :: '"' :: [] from by decide,
      show "width=\"".data = "width".data ++ '=' :: '"' :: [] from by decide]
  exact ra_genCell _ _
    "<mxCell".data "</mxCell>".data "<mxGeometry".data
    "<mxCell".data "</mxCell>".data "<mxGeometry".data
    (fun l => (l.map (ren "_x".data "x".data)).map (ren "_y".data "y".data))
    (fun l => ((l.map (ren "_x".data "x".data)).map (ren "_y".data "y".data)).map
      (ren "_width".data "width".data))
    (by decide) (by decide) (by decide) (by decide) (by decide) (by decide)
    (by decide) (by decide) (by decide)
    (fun l hl => ra_underscore_attrsStr "_width".data _ (by decide) (by decide)
      (by decide) l hl)
    (fun l hl => by
      have hl2 := geomOK_map_ren "_x".data "x".data (by decide) l hl
      have hl3 := geomOK_map_ren "_y".data "y".data (by decide) _ hl2
      exact ra_geom_attrsStr "_width".data "width".data (by decide) (by decide)
        (by decide) (by decide) _ hl3 (fun a ha => hcase_w a (hl3 a ha)))
    (by decide) (by decide) (by decide) (by decide) (by decide) (by decide)
    c hc

theorem ra_st8_cell (c : NativeCell) (hc : cellOK c) :
    replaceAllL "_height=\"".data "height=\"".data
      (genCell "<mxCell".data "</mxCell>".data "<mxGeometry".data
        (fun l => ((l.map (ren "_x".data "x".data)).map (ren "_y".data "y".data)).map
          (ren "_width".data "width".data)) c) =
    genCell "<mxCell".data "</mxCell>".data "<mxGeometry".data
      (fun l => (((l.map (ren "_x".data "x".data)).map (ren "_y".data "y".data)).map
        (ren "_width".data "width".data)).map (ren "_height".data "height".data)) c := by
  rw [show "_height=\"".data = "_height".data ++ '=' :: '"' :: [] from by decide,
      show "height=\"".data = "height".data ++ '=' :: '"' :: [] from by decide]
  exact ra_genCell _ _
    "<mxCell".data "</mxCell>".data "<mxGeometry".data
    "<mxCell".data "</mxCell>".data "<mxGeometry".data
    (fun l => ((l.map (ren "_x".data "x".data)).map (ren "_y".data "y".data)).map
      (ren "_width".data "width".data))
    (fun l => (((l.map (ren "_x".data "x".data)).map (ren "_y".data "y".data)).map
      (ren "_width".data "width".data)).map (ren "_height".data "height".data))
    (by decide) (by decide) (by decide) (by decide) (by decide) (by decide)
    (by decide) (by decide) (by decide)
    (fun l hl => ra_underscore_attrsStr "_height".data _ (by decide) (by decide)
      (by decide) l hl)
    (fun l hl => by
      have hl2 := geomOK_map_ren "_x".data "x".data (by decide) l hl
      have hl3 := geomOK_map_ren "_y".data "y".data (by decide) _ hl2
      have hl4 := geomOK_map_ren "_width".data "width".data (by decide) _ hl3
      exact ra_geom_attrsStr "_height".data "height".data (by decide) (by decide)
        (by decide) (by decide) _ hl4 (fun a ha => hcase_h a (hl4 a ha)))
    (by decide) (by decide) (by decide) (by decide) (by decide) (by decide)
    c hc

theorem stage8_doc (d : NativeDoc) (h : WFdoc d) :
    replaceAllL "_height=\"".data "height=\"".data
      (replaceAllL "_width=\"".data "width=\"".data
        (replaceAllL "_y=\"".data "y=\"".data
          (replaceAllL "_x=\"".data "x=\"".data
            (replaceAllL "</Geometry>".data "</mxGeometry>".data
              (replaceAllL "<Geometry".data "<mxGeometry".data
                (replaceAllL "</Cell>".data "</mxCell>".data
                  (replaceAllL "<Cell".data "<mxCell".data (docStr d)))))))) =
    "<GraphDataModel>".data ++ (d.cells.map preFlat).flatten ++
      "</GraphDataModel>".data := by
  have hmap : d.cells.map cellStr =
      d.cells.map (genCell "<Cell".data "</Cell>".data "<Geometry".data (fun l => l)) :=
    List.map_congr_left (fun c _ => cellStr_eq_gen c)
  rw [show docStr d = "<GraphDataModel>".data ++ (d.cells.map cellStr).flatten ++
      "</GraphDataModel>".data from rfl, hmap]
  rw [ra_doc "<Cell".data "<mxCell".data (by decide) (by decide)
      "<Cell".data "</Cell>".data "<Geometry".data
      "<mxCell".data "</Cell>".data "<Geometry".data
      (fun l => l) (fun l => l) (by decide) ra_st1_cell (by decide) (by decide) d.cells h]
  rw [ra_doc "</Cell>".data "</mxCell>".data (by decide) (by decide)
      "<mxCell".data "</Cell>".data "<Geometry".data
      "<mxCell".data "</mxCell>".data "<Geometry".data
      (fun l => l) (fun l => l) (by decide) ra_st2_cell (by decide) (by decide) d.cells h]
  rw [ra_doc "<Geometry".data "<mxGeometry".data (by decide) (by decide)
      "<mxCell".data "</mxCell>".data "<Geometry".data
      "<mxCell".data "</mxCell>".data "<mxGeometry".data
      (fun l => l) (fun l => l) (by decide) ra_st3_cell (by decide) (by decide) d.cells h]
  rw [ra_doc "</Geometry>".data "</mxGeometry>".data (by decide) (by decide)
      "<mxCell".data "</mxCell>".data "<mxGeometry".data
      "<mxCell".data "</mxCell>".data "<mxGeometry".data
      (fun l => l) (fun l => l) (by decide) ra_st4_cell (by decide) (by decide) d.cells h]
  rw [ra_doc "_x=\"".data "x=\"".data (by decide) (by decide)
      "<mxCell".data "</mxCell>".data "<mxGeometry".data
      "<mxCell".data "</mxCell>".data "<mxGeometry".data
      (fun l => l) (fun l => l.map (ren "_x".data "x".data))
      (by decide) ra_st5_cell (by decide) (by decide) d.cells h]
  rw [ra_doc "_y=\"".data "y=\"".data (by decide) (by decide)
      "<mxCell".data "</mxCell>".data "<mxGeometry".data
      "<mxCell".data "</mxCell>".data "<mxGeometry".data
      (fun l => l.map (ren "_x".data "x".data))
      (fun l => (l.map (ren "_x".data "x".data)).map (ren "_y".data "y".data))
      (by decide) ra_st6_cell (by decide) (by decide) d.cells h]
  rw [ra_doc "_width=\"".data "width=\"".data (by decide) (by decide)
      "<mxCell".data "</mxCell>".data "<mxGeometry".data
      "<mxCell".data "</mxCell>".data "<mxGeometry".data
      (fun l => (l.map (ren "_x".data "x".data)).map (ren "_y".data "y".data))
      (fun l => ((l.map (ren "_x".data "x".data)).map (ren "_y".data "y".data)).map
        (ren "_width".data "width".data))
      (by decide) ra_st7_cell (by decide) (by decide) d.cells h]
  rw [ra_doc "_height=\"".data "height=\"".data (by decide) (by decide)
      "<mxCell".data "</mxCell>".data "<mxGeometry".data
      "<mxCell".data "</mxCell>".data "<mxGeometry".data
      (fun l => ((l.map (ren "_x".data "x".data)).map (ren "_y".data "y".data)).map
        (ren "_width".data "width".data))
      (fun l => (((l.map (ren "_x".data "x".data)).map (ren "_y".data "y".data)).map
        (ren "_width".data "width".data)).map (ren "_height".data "height".data))
      (by decide) ra_st8_cell (by decide) (by decide) d.cells h]
  have hfin : ∀ c ∈ d.cells,
      genCell "<mxCell".data "</mxCell>".data "<mxGeometry".data
        (fun l => (((l.map (ren "_x".data "x".data)).map (ren "_y".data "y".data)).map
          (ren "_width".data "width".data)).map (ren "_height".data "height".data)) c =
      preFlat c := by
    intro c hcm
    have hc := h c hcm
    cases c with
    | selfClosed attrs => rfl
    | plain attrs geom =>
      simp only [genCell, preFlat]
      rw [map_ren_chain geom hc.2]
    | styled attrs geom pre post =>
      simp only [genCell, preFlat]
      rw [map_ren_chain geom hc.2.1]
  rw [List.map_congr_left hfin]

/-! ### Equations for the flattening scanner -/

theorem stripPre_pre (pat t : List Char) : stripPre pat (pat ++ t) = some t := by
  unfold stripPre
  rw [if_pos (List.isPrefixOf_iff_prefix.mpr (List.prefix_append pat t))]
  rw [List.drop_left]

theorem stripPre_none (pat s : List Char) (h : ¬ pat <+: s) : stripPre pat s = none := by
  unfold stripPre
  rw [if_neg (fun hx => h (List.isPrefixOf_iff_prefix.mp hx))]

theorem stripPre_rest (pat s t : List Char) (hp : pat ≠ [])
    (h : stripPre pat s = some t) : t <:+ s ∧ t.length < s.length := by
  unfold stripPre at h
  by_cases hx : pat.isPrefixOf s = true
  · rw [if_pos hx] at h
    have ht : t = s.drop pat.length := (Option.some.inj h).symm
    subst ht
    constructor
    · exact List.drop_suffix _ _
    · rw [List.length_drop]
      have h1 : 0 < pat.length := List.length_pos.mpr hp
      have h2 : pat.length ≤ s.length := (List.isPrefixOf_iff_prefix.mp hx).length_le
      omega
  · rw [if_neg hx] at h
    exact Option.noConfusion h

theorem takeWhile_o_append (p : Char → Bool) (A : List Char) (c0 : Char) (t : List Char)
    (hA : ∀ c ∈ A, p c = true) (hc : p c0 = false) :
    (A ++ c0 :: t).takeWhile p = A ∧ (A ++ c0 :: t).dropWhile p = c0 :: t := by
  induction A with
  | nil =>
    constructor
    · show (c0 :: t).takeWhile p = []
      simp [List.takeWhile_cons, hc]
    · show (c0 :: t).dropWhile p = c0 :: t
      simp [List.dropWhile_cons, hc]
  | cons a A2 ih =>
    have ha : p a = true := hA a (List.mem_cons_self a A2)
    obtain ⟨ih1, ih2⟩ := ih (fun c hc2 => hA c (List.mem_cons_of_mem a hc2))
    constructor
    · show ((a :: A2) ++ c0 :: t).takeWhile p = a :: A2
      rw [show (a :: A2) ++ c0 :: t = a :: (A2 ++ c0 :: t) from rfl]
      rw [List.takeWhile_cons, if_pos ha, ih1]
    · show ((a :: A2) ++ c0 :: t).dropWhile p = c0 :: t
      rw [show (a :: A2) ++ c0 :: t = a :: (A2 ++ c0 :: t) from rfl]
      rw [List.dropWhile_cons, if_pos ha, ih2]

theorem notGt_true (c : Char) (h : c ≠ '>') : notGt c = true := by
  simp [notGt, h]

theorem afterGt_eval (X t : List Char) (hX : '>' ∉ X) :
    afterGt (X ++ '>' :: t) = some t := by
  unfold afterGt
  rw [(takeWhile_o_append notGt X '>' t
    (fun c hc => notGt_true c (fun he => hX (he ▸ hc))) (by decide)).2]

theorem takeWhile_notGt_eval (X t : List Char) (hX : '>' ∉ X) :
    (X ++ '>' :: t).takeWhile notGt = X :=
  (takeWhile_o_append notGt X '>' t
    (fun c hc => notGt_true c (fun he => hX (he ▸ hc))) (by decide)).1

theorem afterGt_rest (s t : List Char) (h : afterGt s = some t) :
    t <:+ s ∧ t.length < s.length := by
  unfold afterGt at h
  cases hd : s.dropWhile notGt with
  | nil => rw [hd] at h; exact Option.noConfusion h
  | cons c cs =>
    rw [hd] at h
    have ht : t = cs := (Option.some.inj h).symm
    subst ht
    have h1 : (c :: t) <:+ s := hd ▸ List.dropWhile_suffix notGt
    constructor
    · exact (List.suffix_cons c t).trans h1
    · have h2 := h1.length_le
      simp only [List.length_cons] at h2
      omega

theorem tm_none_of_not_prefix (s : List Char) (h : ¬ "<mxCell".data <+: s) :
    tryMatch s = none := by
  unfold tryMatch
  rw [stripPre_none _ _ h]
  rfl

theorem tm_none_of_head (s : List Char) (h : s.head? ≠ some '<') : tryMatch s = none := by
  apply tm_none_of_not_prefix
  intro hp
  exact h ((prefix_head_eq "<mxCell".data s hp (by decide)).trans
    (show ("<mxCell".data).head? = some '<' from rfl))

theorem not_prefix_of_getElem (p s : List Char) (i : Nat) (hi : i < p.length)
    (h : s[i]? ≠ p[i]?) : ¬ p <+: s := by
  intro hp
  obtain ⟨t, rfl⟩ := hp
  exact h (List.getElem?_append_left hi)

theorem head_ne_of_not_mem (L s2 : List Char) (ch : Char) (hL : ch ∉ L) (hs : s2 <:+ L)
    (hne : s2 ≠ []) : s2.head? ≠ some ch := by
  cases s2 with
  | nil => exact absurd rfl hne
  | cons c cs =>
    intro hh
    have hc : c = ch := Option.some.inj hh
    exact hL (hs.subset (hc ▸ List.mem_cons_self c cs))

theorem fsGo_skip : ∀ (s : List Char) (k : Nat), fsGo k s = fsGo 0 (s.drop k) := by
  intro s
  induction s with
  | nil => intro k; cases k <;> rfl
  | cons c cs ih =>
    intro k
    cases k with
    | zero => rfl
    | succ k => simpa [fsGo] using ih k

theorem fs_cons_none (c : Char) (cs : List Char) (h : tryMatch (c :: cs) = none) :
    flattenStyles (c :: cs) = c :: flattenStyles cs := by
  show fsGo 0 (c :: cs) = c :: fsGo 0 cs
  simp [fsGo, h]

theorem fs_skip_chunk (x b : List Char)
    (hx : ∀ s2, s2 <:+ x → s2 ≠ [] → tryMatch (s2 ++ b) = none) :
    flattenStyles (x ++ b) = x ++ flattenStyles b := by
  induction x with
  | nil => rfl
  | cons c cs ih =>
    have h0 : tryMatch (c :: (cs ++ b)) = none :=
      hx (c :: cs) (List.suffix_refl _) (by simp)
    show flattenStyles (c :: (cs ++ b)) = (c :: cs) ++ flattenStyles b
    rw [fs_cons_none _ _ h0,
        ih (fun s2 hs hne => hx s2 (hs.trans (List.suffix_cons c cs)) hne)]
    rfl

theorem fs_match_chunk (x b r : List Char) (hne : x ≠ [])
    (h : tryMatch (x ++ b) = some (r, b)) :
    flattenStyles (x ++ b) = r ++ flattenStyles b := by
  cases x with
  | nil => exact absurd rfl hne
  | cons c cs =>
    have h2 : tryMatch (c :: (cs ++ b)) = some (r, b) := h
    show fsGo 0 (c :: (cs ++ b)) = r ++ flattenStyles b
    rw [show fsGo 0 (c :: (cs ++ b)) =
        (match tryMatch (c :: (cs ++ b)) with
        | some (r2, rest) =>
            r2 ++ fsGo ((c :: (cs ++ b)).length - rest.length - 1) (cs ++ b)
        | none => c :: fsGo 0 (cs ++ b)) from rfl]
    rw [h2]
    show r ++ fsGo ((c :: (cs ++ b)).length - b.length - 1) (cs ++ b) = r ++ flattenStyles b
    congr 1
    rw [show (c :: (cs ++ b)).length - b.length - 1 = cs.length from by
      simp only [List.length_cons, List.length_append]
      omega]
    rw [fsGo_skip, List.drop_append_of_le_length le_rfl, List.drop_length, List.nil_append]
    rfl

/-! ### Evaluation of the discriminator search and the attribute scan -/

theorem findDisc_head (R : List Char) :
    findDisc ("as=\"style\"".data ++ R) = some ([], R) := by
  show findDisc ('a' :: ("s=\"style\"".data ++ R)) = some ([], R)
  unfold findDisc
  rw [if_pos (List.isPrefixOf_iff_prefix.mpr
    (show "as=\"style\"".data <+: 'a' :: ("s=\"style\"".data ++ R) from
      List.prefix_append "as=\"style\"".data R))]
  have hd : ('a' :: ("s=\"style\"".data ++ R)).drop ("as=\"style\"".data.length) = R := by
    show ("as=\"style\"".data ++ R).drop ("as=\"style\"".data.length) = R
    exact List.drop_left _ _
  rw [hd]

theorem findDisc_eval (X R : List Char) (hgt : '>' ∉ X)
    (hsb : safeBoundary "as=\"style\"".data X)
    (hni : ¬ "as=\"style\"".data <:+: X) :
    findDisc (X ++ ("as=\"style\"".data ++ R)) = some (X, R) := by
  induction X with
  | nil => exact findDisc_head R
  | cons x X2 ih =>
    have hpre : ¬ "as=\"style\"".data <+: (x :: (X2 ++ ("as=\"style\"".data ++ R))) := by
      intro hp
      by_cases hl : "as=\"style\"".data.length ≤ (x :: X2).length
      · exact hni (List.prefix_of_prefix_length_le hp
          (show (x :: X2) <+: (x :: X2) ++ ("as=\"style\"".data ++ R) from
            List.prefix_append _ _) hl).isInfix
      · exact hsb (x :: X2) (List.suffix_refl _) (by simp) (lt_of_not_le hl)
          (List.prefix_of_prefix_length_le
            (show (x :: X2) <+: (x :: X2) ++ ("as=\"style\"".data ++ R) from
              List.prefix_append _ _) hp (le_of_lt (lt_of_not_le hl)))
    show findDisc (x :: (X2 ++ ("as=\"style\"".data ++ R))) = some (x :: X2, R)
    unfold findDisc
    rw [if_neg (fun hx2 => hpre (List.isPrefixOf_iff_prefix.mp hx2))]
    rw [if_neg (show ¬ (x = '>') from fun he => hgt (he ▸ List.mem_cons_self x X2))]
    rw [ih (fun hm => hgt (List.mem_cons_of_mem x hm))
        (sb_mono _ _ _ hsb (List.suffix_cons x X2))
        (fun hi => hni (List.infix_cons hi))]

theorem wordChar_of_clean (c : Char) (h : c.isAlpha = true ∨ c.isDigit = true) :
    wordChar c = true := by
  rcases h with h | h <;> simp [wordChar, h]

theorem notQuote_true (c : Char) (h : c ≠ '"') : notQuote c = true := by
  simp [notQuote, h]

theorem matchAttrAt_eval (n v R : List Char) (hn : cleanName n) (hv : cleanValue v) :
    matchAttrAt (n ++ '=' :: '"' :: (v ++ '"' :: R)) =
      some (n ++ '=' :: '"' :: (v ++ ['"']), R) := by
  have htw := takeWhile_o_append wordChar n '=' ('"' :: (v ++ '"' :: R))
    (fun c hc => wordChar_of_clean c (hn.2 c hc)) (by decide)
  have hvw := takeWhile_o_append notQuote v '"' R
    (fun c hc => notQuote_true c (fun he => ((hv c hc).2.2.1 he))) (by decide)
  unfold matchAttrAt
  rw [htw.1, htw.2, if_neg hn.1]
  show (if ('=' : Char) = '=' ∧ ('"' : Char) = '"' then
      match ((v ++ '"' :: R).dropWhile notQuote) with
      | [] => none
      | _ :: rest =>
        some (n ++ '=' :: '"' :: ((v ++ '"' :: R).takeWhile notQuote ++ ['"']), rest)
    else none) = some (n ++ '=' :: '"' :: (v ++ ['"']), R)
  rw [if_pos ⟨rfl, rfl⟩, hvw.2, hvw.1]

theorem matchAttrAt_nonword (c : Char) (z : List Char) (h : wordChar c = false) :
    matchAttrAt (c :: z) = none := by
  unfold matchAttrAt
  rw [if_pos (by rw [List.takeWhile_cons, if_neg (by rw [h]; exact Bool.false_ne_true)])]

theorem asGo_skip : ∀ (s : List Char) (k : Nat), asGo k s = asGo 0 (s.drop k) := by
  intro s
  induction s with
  | nil => intro k; cases k <;> rfl
  | cons c cs ih =>
    intro k
    cases k with
    | zero => rfl
    | succ k => simpa [asGo] using ih k

theorem attrScan_cons_none (c : Char) (cs : List Char)
    (h : matchAttrAt (c :: cs) = none) : attrScan (c :: cs) = attrScan cs := by
  show asGo 0 (c :: cs) = asGo 0 cs
  simp [asGo, h]

theorem attrScan_match (x R m : List Char) (hne : x ≠ [])
    (h : matchAttrAt (x ++ R) = some (m, R)) :
    attrScan (x ++ R) = m :: attrScan R := by
  cases x with
  | nil => exact absurd rfl hne
  | cons c cs =>
    have h2 : matchAttrAt (c :: (cs ++ R)) = some (m, R) := h
    show asGo 0 (c :: (cs ++ R)) = m :: attrScan R
    rw [show asGo 0 (c :: (cs ++ R)) =
        (match matchAttrAt (c :: (cs ++ R)) with
        | some (m2, rest) => m2 :: asGo ((c :: (cs ++ R)).length - rest.length - 1) (cs ++ R)
        | none => asGo 0 (cs ++ R)) from rfl]
    rw [h2]
    show m :: asGo ((c :: (cs ++ R)).length - R.length - 1) (cs ++ R) = m :: attrScan R
    congr 1
    rw [show (c :: (cs ++ R)).length - R.length - 1 = cs.length from by
      simp only [List.length_cons, List.length_append]
      omega]
    rw [asGo_skip, List.drop_append_of_le_length le_rfl, List.drop_length, List.nil_append]
    rfl

theorem attrScan_mid : ∀ (l : List Attr), (∀ a ∈ l, cleanAttr a) →
    attrScan (attrsStr l ++ [' ']) = l.map attrText := by
  intro l
  induction l with
  | nil =>
    intro _
    show attrScan [' '] = []
    decide
  | cons p ps ih =>
    intro h
    have hp := h p (List.mem_cons_self p ps)
    rw [show attrsStr (p :: ps) ++ [' '] = ' ' :: (attrText p ++ (attrsStr ps ++ [' '])) from by
      rw [attrsStr_cons]
      show (' ' :: attrText p) ++ attrsStr ps ++ [' '] = _
      simp [List.append_assoc]]
    rw [attrScan_cons_none _ _ (matchAttrAt_nonword ' ' _ (by decide))]
    rw [attrScan_match (attrText p) _ (attrText p) (by simp [attrText]) (by
      rw [show attrText p ++ (attrsStr ps ++ [' ']) =
        p.name ++ '=' :: '"' :: (p.value ++ '"' :: (attrsStr ps ++ [' '])) from by
          simp [attrText]]
      exact matchAttrAt_eval p.name p.value _ hp.1 hp.2)]
    rw [ih (fun a ha => h a (List.mem_cons_of_mem p ha))]
    rfl

theorem attrScan_midT (p : Attr) (ps : List Attr) (hp : cleanAttr p)
    (hps : ∀ a ∈ ps, cleanAttr a) :
    attrScan (attrText p ++ (attrsStr ps ++ [' '])) = attrText p :: ps.map attrText := by
  rw [attrScan_match (attrText p) _ (attrText p) (by simp [attrText]) (by
    rw [show attrText p ++ (attrsStr ps ++ [' ']) =
      p.name ++ '=' :: '"' :: (p.value ++ '"' :: (attrsStr ps ++ [' '])) from by
        simp [attrText]]
    exact matchAttrAt_eval p.name p.value _ hp.1 hp.2)]
  rw [attrScan_mid ps hps]

theorem not_asEq_prefix_attrText (a : Attr) (hn : cleanName a.name)
    (hne : a.name ≠ "as".data) : ¬ ("as=".data <+: attrText a) := by
  intro hp
  obtain ⟨t, ht⟩ := hp
  have ht2 : "as".data ++ '=' :: t = a.name ++ '=' :: ('"' :: (a.value ++ ['"'])) := ht
  obtain ⟨h1, _⟩ := eq_of_append_sep '=' "as".data a.name t ('"' :: (a.value ++ ['"'])) ht2
    (by decide) (fun hm => (cleanName_no_mark a.name hn '=' hm).2.2.2.1 rfl)
  exact hne h1.symm

theorem filter_attrText (l : List Attr)
    (h : ∀ a ∈ l, cleanName a.name ∧ a.name ≠ "as".data) :
    (l.map attrText).filter (fun m => !("as=".data.isPrefixOf m)) = l.map attrText := by
  apply List.filter_eq_self.mpr
  intro m hm
  obtain ⟨a, ha, rfl⟩ := List.mem_map.mp hm
  have hnp := not_asEq_prefix_attrText a (h a ha).1 (h a ha).2
  have hb : "as=".data.isPrefixOf (attrText a) = false := by
    by_contra hx
    exact hnp (List.isPrefixOf_iff_prefix.mp (eq_true_of_ne_false hx))
  simp [hb]

theorem uq_step_ne (c c2 : Char) (r : List Char) (h : ¬ (c = '=' ∧ c2 = '"')) :
    unquoteFrom (c :: c2 :: r) = c :: unquoteFrom (c2 :: r) := by
  rw [show unquoteFrom (c :: c2 :: r) =
    (if c = '=' ∧ c2 = '"' then
      if (r.takeWhile notQuote).length < r.length then
        '=' :: (r.takeWhile notQuote ++ r.drop ((r.takeWhile notQuote).length + 1))
      else '=' :: '"' :: unquoteFrom r
    else c :: unquoteFrom (c2 :: r)) from rfl]
  rw [if_neg h]

theorem uq_step_hit (r : List Char) (h : (r.takeWhile notQuote).length < r.length) :
    unquoteFrom ('=' :: '"' :: r) =
      '=' :: (r.takeWhile notQuote ++ r.drop ((r.takeWhile notQuote).length + 1)) := by
  rw [show unquoteFrom ('=' :: '"' :: r) =
    (if ('=' : Char) = '=' ∧ ('"' : Char) = '"' then
      if (r.takeWhile notQuote).length < r.length then
        '=' :: (r.takeWhile notQuote ++ r.drop ((r.takeWhile notQuote).length + 1))
      else '=' :: '"' :: unquoteFrom r
    else '=' :: unquoteFrom ('"' :: r)) from rfl]
  rw [if_pos ⟨rfl, rfl⟩, if_pos h]

theorem unquote_nv (n v : List Char) (hn : ∀ c ∈ n, c ≠ '=') (hv : '"' ∉ v) :
    unquoteFrom (n ++ '=' :: '"' :: (v ++ ['"'])) = n ++ '=' :: v := by
  have hvw : (v ++ ['"']).takeWhile notQuote = v :=
    (takeWhile_o_append notQuote v '"' []
      (fun c hc => notQuote_true c (fun he => hv (he ▸ hc))) (by decide)).1
  have hdrop : (v ++ ['"']).drop (v.length + 1) = [] := by
    rw [show v.length + 1 = (v ++ ['"']).length from by simp]
    exact List.drop_length _
  induction n with
  | nil =>
    show unquoteFrom ('=' :: '"' :: (v ++ ['"'])) = '=' :: v
    rw [uq_step_hit (v ++ ['"']) (by rw [hvw]; simp)]
    rw [hvw, hdrop]
    simp
  | cons c n2 ih =>
    have hc : c ≠ '=' := hn c (List.mem_cons_self c n2)
    have ih2 := ih (fun x hx => hn x (List.mem_cons_of_mem c hx))
    cases n2 with
    | nil =>
      show unquoteFrom (c :: '=' :: '"' :: (v ++ ['"'])) = c :: '=' :: v
      rw [uq_step_ne c '=' ('"' :: (v ++ ['"'])) (fun hand => hc hand.1)]
      rw [show unquoteFrom ('=' :: '"' :: (v ++ ['"'])) = '=' :: v from ih2]
    | cons c2 n3 =>
      show unquoteFrom (c :: c2 :: (n3 ++ '=' :: '"' :: (v ++ ['"']))) =
        c :: (c2 :: n3 ++ '=' :: v)
      rw [uq_step_ne c c2 (n3 ++ '=' :: '"' :: (v ++ ['"'])) (fun hand => hc hand.1)]
      rw [show unquoteFrom (c2 :: (n3 ++ '=' :: '"' :: (v ++ ['"']))) =
        (c2 :: n3) ++ '=' :: v from ih2]

theorem unquote_attrText (a : Attr) (hn : cleanName a.name) (hv : cleanValue a.value) :
    unquoteFrom (attrText a) = styleEntry a := by
  show unquoteFrom (a.name ++ '=' :: '"' :: (a.value ++ ['"'])) = _
  rw [unquote_nv a.name a.value
    (fun c hc => (cleanName_no_mark a.name hn c hc).2.2.2.1)
    (fun hm => ((hv '"' hm).2.2.1 rfl))]
  rfl

theorem styleBody_ne (l : List Attr) (h : l ≠ []) : styleBody l ≠ [] := by
  cases l with
  | nil => exact absurd rfl h
  | cons a l2 =>
    cases l2 with
    | nil =>
      show joinSemi [styleEntry a] ≠ []
      show styleEntry a ≠ []
      show a.name ++ '=' :: a.value ≠ []
      simp
    | cons b l3 =>
      show styleEntry a ++ ';' :: joinSemi (styleEntry b :: l3.map styleEntry) ≠ []
      simp

theorem mkRepl_nil (A B : List Char) :
    mkRepl A B [] = "<mxCell".data ++ A ++ ">".data ++
      "<mxGeometry".data ++ B ++ "/>".data ++ "</mxCell>".data := by
  unfold mkRepl
  show (let styles := joinSemi (((attrScan []).filter
      (fun m => !("as=".data.isPrefixOf m))).map unquoteFrom)
    let styleAttr := if styles = [] then [] else " style=\"".data ++ styles ++ ";\"".data
    "<mxCell".data ++ A ++ styleAttr ++ ">".data ++
      "<mxGeometry".data ++ B ++ "/>".data ++ "</mxCell>".data) = _
  show "<mxCell".data ++ A ++ [] ++ ">".data ++
      "<mxGeometry".data ++ B ++ "/>".data ++ "</mxCell>".data = _
  simp

theorem mkRepl_cons (A B : List Char) (p : Attr) (ps : List Attr)
    (h : ∀ a ∈ p :: ps, styleAttrOK a) :
    mkRepl A B (attrText p ++ (attrsStr ps ++ [' '])) =
      "<mxCell".data ++ A ++ styleAttrStr (p :: ps) ++ ">".data ++
      "<mxGeometry".data ++ B ++ "/>".data ++ "</mxCell>".data := by
  have hp := h p (List.mem_cons_self p ps)
  have hclean : ∀ a ∈ p :: ps, cleanAttr a := fun a ha => (h a ha).1
  simp only [mkRepl]
  rw [attrScan_midT p ps hp.1 (fun a ha => hclean a (List.mem_cons_of_mem p ha))]
  rw [show attrText p :: ps.map attrText = (p :: ps).map attrText from rfl]
  rw [filter_attrText (p :: ps) (fun a ha => ⟨(hclean a ha).1, (h a ha).2.1⟩)]
  rw [List.map_map]
  rw [List.map_congr_left (fun a ha =>
    show (unquoteFrom ∘ attrText) a = styleEntry a from
      unquote_attrText a (hclean a ha).1 (hclean a ha).2)]
  rw [show joinSemi ((p :: ps).map styleEntry) = styleBody (p :: ps) from rfl]
  rw [if_neg (styleBody_ne (p :: ps) (by simp))]
  rw [show styleAttrStr (p :: ps) =
    " style=\"".data ++ styleBody (p :: ps) ++ ";\"".data from by
      unfold styleAttrStr
      rw [if_neg (by simp)]]

/-! ### Evaluating the flattening attempt on a well-formed styled chunk -/

theorem obind_some {α β : Type} (a : α) (f : α → Option β) :
    Option.bind (some a) f = f a := rfl

theorem obind_none {α β : Type} (f : α → Option β) :
    Option.bind (none : Option α) f = none := rfl

theorem conv_clean (g : Attr) (h : geomAttrOK g) : cleanAttr (convGeomAttr g) := by
  refine ⟨?_, h.2⟩
  show cleanName (stripGeomName g.name)
  unfold stripGeomName
  rcases h.1 with h1 | h1 | h1 | h1 | h1
  · rw [if_pos h1]; decide
  · rw [if_neg (by rw [h1]; decide), if_pos h1]; decide
  · rw [if_neg (by rw [h1]; decide), if_neg (by rw [h1]; decide), if_pos h1]; decide
  · rw [if_neg (by rw [h1]; decide), if_neg (by rw [h1]; decide),
      if_neg (by rw [h1]; decide), if_pos h1]
    decide
  · have hne : ∀ m : List Char, '_' ∈ m → ¬ g.name = m := fun m hm he =>
      absurd (h1.2 '_' (he ▸ hm)) (by decide)
    rw [if_neg (hne _ (by decide)), if_neg (hne _ (by decide)),
      if_neg (hne _ (by decide)), if_neg (hne _ (by decide))]
    exact h1

theorem conv_clean_map (geom : List Attr) (h : ∀ g ∈ geom, geomAttrOK g) :
    ∀ a ∈ geom.map convGeomAttr, cleanAttr a := by
  intro a ha
  obtain ⟨g, hg, rfl⟩ := List.mem_map.mp ha
  exact conv_clean g (h g hg)

theorem mem_attrText_attrStr (a : Attr) (c : Char) (h : c ∈ attrText a) :
    c ∈ attrStr a := List.mem_cons_of_mem _ h

theorem tm_eval (A B X P tail : List Char)
    (hA : '>' ∉ A) (hB : '>' ∉ B) (hP : '>' ∉ P)
    (hX : '>' ∉ X) (hsbX : safeBoundary "as=\"style\"".data X)
    (hniX : ¬ "as=\"style\"".data <:+: X) :
    tryMatch ("<mxCell".data ++ (A ++ '>' :: ("<mxGeometry".data ++ ((B ++ ['/']) ++ '>' ::
      ("<Object ".data ++ (X ++ ("as=\"style\"".data ++ ((P ++ ['/']) ++ '>' ::
        ("</mxCell>".data ++ tail))))))))) = some (mkRepl A B X, tail) := by
  have hB2 : '>' ∉ B ++ ['/'] := by
    intro hm
    rcases List.mem_append.mp hm with h | h
    · exact hB h
    · simp at h
  have hP2 : '>' ∉ P ++ ['/'] := by
    intro hm
    rcases List.mem_append.mp hm with h | h
    · exact hP h
    · simp at h
  unfold tryMatch
  rw [stripPre_pre, obind_some]
  rw [afterGt_eval A _ hA, obind_some]
  rw [stripPre_pre, obind_some]
  rw [afterGt_eval (B ++ ['/']) _ hB2, obind_some]
  rw [takeWhile_notGt_eval (B ++ ['/']) _ hB2]
  rw [List.getLast?_concat]
  rw [if_pos rfl]
  rw [stripPre_pre, obind_some]
  rw [findDisc_eval X _ hX hsbX hniX, obind_some]
  rw [afterGt_eval (P ++ ['/']) _ hP2, obind_some]
  rw [takeWhile_notGt_eval (P ++ ['/']) _ hP2, List.getLast?_concat, if_pos rfl]
  rw [stripPre_pre, obind_some]
  rw [takeWhile_notGt_eval A _ hA, List.dropLast_concat]

theorem preFlat_styled_nil (attrs geom post : List Attr) (b : List Char) :
    preFlat (.styled attrs geom [] post) ++ b =
      "<mxCell".data ++ (attrsStr attrs ++ '>' :: ("<mxGeometry".data ++
        ((attrsStr (geom.map convGeomAttr) ++ ['/']) ++ '>' ::
          ("<Object ".data ++ ([] ++ ("as=\"style\"".data ++
            ((attrsStr post ++ ['/']) ++ '>' :: ("</mxCell>".data ++ b)))))))) := by
  have h1 : ∀ t : List Char, ">".data ++ t = '>' :: t := fun t => rfl
  have h2 : ∀ t : List Char, "/>".data ++ t = '/' :: '>' :: t := fun t => rfl
  have h3 : ∀ t : List Char, "<Object".data ++ (' ' :: t) = "<Object ".data ++ t :=
    fun t => rfl
  have h4 : ∀ t : List Char, " as=\"style\"".data ++ t = ' ' :: ("as=\"style\"".data ++ t) :=
    fun t => rfl
  simp [preFlat, genCell, List.append_assoc, attrsStr_nil, h1, h2, h3, h4]

theorem preFlat_styled_cons (attrs geom : List Attr) (p : Attr) (ps post : List Attr)
    (b : List Char) :
    preFlat (.styled attrs geom (p :: ps) post) ++ b =
      "<mxCell".data ++ (attrsStr attrs ++ '>' :: ("<mxGeometry".data ++
        ((attrsStr (geom.map convGeomAttr) ++ ['/']) ++ '>' ::
          ("<Object ".data ++ ((attrText p ++ (attrsStr ps ++ [' '])) ++
            ("as=\"style\"".data ++
              ((attrsStr post ++ ['/']) ++ '>' :: ("</mxCell>".data ++ b)))))))) := by
  have h1 : ∀ t : List Char, ">".data ++ t = '>' :: t := fun t => rfl
  have h2 : ∀ t : List Char, "/>".data ++ t = '/' :: '>' :: t := fun t => rfl
  have h3 : ∀ t : List Char, "<Object".data ++ (' ' :: t) = "<Object ".data ++ t :=
    fun t => rfl
  have h4 : ∀ t : List Char, " as=\"style\"".data ++ t = ' ' :: ("as=\"style\"".data ++ t) :=
    fun t => rfl
  simp [preFlat, genCell, List.append_assoc, attrsStr_cons, attrStr, h1, h2, h3, h4]

theorem tm_styled (attrs geom pre post : List Attr) (b : List Char)
    (hattrs : ∀ a ∈ attrs, cleanAttr a) (hgeom : ∀ g ∈ geom, geomAttrOK g)
    (hpre : ∀ p ∈ pre, styleAttrOK p) (hpost : ∀ q ∈ post, cleanAttr q) :
    tryMatch (preFlat (.styled attrs geom pre post) ++ b) =
      some (convertCell (.styled attrs geom pre post), b) := by
  have hA : '>' ∉ attrsStr attrs := gt_not_mem_attrsStr attrs hattrs
  have hB : '>' ∉ attrsStr (geom.map convGeomAttr) :=
    gt_not_mem_attrsStr _ (conv_clean_map geom hgeom)
  have hP : '>' ∉ attrsStr post := gt_not_mem_attrsStr post hpost
  cases pre with
  | nil =>
    rw [preFlat_styled_nil]
    rw [tm_eval _ _ _ _ _ hA hB hP (by simp) (sb_nil _)
      (fun hi => by have := hi.sublist.length_le; simp at this)]
    rw [mkRepl_nil]
    show _ = some (convertCell (.styled attrs geom [] post), b)
    simp [convertCell, styleAttrStr]
  | cons p ps =>
    have hpre2 : ∀ a ∈ p :: ps, cleanAttr a := fun a ha => (hpre a ha).1
    have hgtPre : '>' ∉ attrsStr (p :: ps) := gt_not_mem_attrsStr (p :: ps) hpre2
    have hXgt : '>' ∉ attrText p ++ (attrsStr ps ++ [' ']) := by
      intro hm
      rcases List.mem_append.mp hm with h | h
      · exact hgtPre (by
          rw [attrsStr_cons]
          exact List.mem_append_left _ (mem_attrText_attrStr p _ h))
      rcases List.mem_append.mp h with h | h
      · exact hgtPre (by
          rw [attrsStr_cons]
          exact List.mem_append_right _ h)
      · simp at h
    have hpOK := hpre p (List.mem_cons_self p ps)
    have hsbP : safeBoundary "as=\"style\"".data (attrText p) :=
      sb_mono _ _ _ (sb_disc_attrStr p hpOK.1.2) ⟨[' '], rfl⟩
    have hniP : ¬ "as=\"style\"".data <:+: attrText p := fun hi =>
      not_disc_infix_attrStr p
        (fun hm => (cleanName_no_mark p.name hpOK.1.1 '=' hm).2.2.2.1 rfl)
        hpOK.1.2 hpOK.2.2
        (show "as=\"style\"".data <:+: attrStr p from List.infix_cons hi)
    have hsbX : safeBoundary "as=\"style\"".data (attrText p ++ (attrsStr ps ++ [' '])) :=
      sb_append _ _ _ hsbP
        (sb_append _ _ _ (sb_disc_attrsStr ps (fun a ha => hpre a (List.mem_cons_of_mem p ha)))
          (by decide))
    have hniX : ¬ "as=\"style\"".data <:+: attrText p ++ (attrsStr ps ++ [' ']) :=
      not_infix_append _ _ _ hsbP hniP
        (not_infix_append _ _ _
          (sb_disc_attrsStr ps (fun a ha => hpre a (List.mem_cons_of_mem p ha)))
          (not_disc_infix_attrsStr ps (fun a ha => hpre a (List.mem_cons_of_mem p ha)))
          (fun hi => by have := hi.sublist.length_le; simp at this))
    rw [preFlat_styled_cons]
    rw [tm_eval _ _ _ _ _ hA hB hP hXgt hsbX hniX]
    rw [mkRepl_cons _ _ p ps hpre]
    show _ = some (convertCell (.styled attrs geom (p :: ps) post), b)
    rfl

/-! ### No flattening match starts inside a wrapper tag or a non-styled chunk -/

theorem tm_none_head_cons (c : Char) (s : List Char) (h : c ≠ '<') :
    tryMatch (c :: s) = none :=
  tm_none_of_head (c :: s) (fun hh => h (Option.some.inj hh))

theorem tm_none_of_second (c : Char) (s : List Char) (h : c ≠ 'm') :
    tryMatch ('<' :: c :: s) = none := by
  apply tm_none_of_not_prefix
  intro hp
  obtain ⟨t, ht⟩ := hp
  have ht2 : '<' :: 'm' :: ("xCell".data ++ t) = '<' :: c :: s := ht
  injection ht2 with e1 e2
  injection e2 with e3 e4
  exact h e3.symm

theorem tm_none_lt4 (c : Char) (s : List Char) (h : c ≠ 'C') :
    tryMatch ('<' :: 'm' :: 'x' :: c :: s) = none := by
  apply tm_none_of_not_prefix
  intro hp
  obtain ⟨t, ht⟩ := hp
  have ht2 : '<' :: 'm' :: 'x' :: 'C' :: ("ell".data ++ t) = '<' :: 'm' :: 'x' :: c :: s := ht
  injection ht2 with e1 e2
  injection e2 with e3 e4
  injection e4 with e5 e6
  injection e6 with e7 e8
  exact h e7.symm

theorem tm_none_suffix_of_no_lt (L u r : List Char) (hlt : '<' ∉ L)
    (hu : u <:+ L) (hune : u ≠ []) : tryMatch (u ++ r) = none := by
  cases u with
  | nil => exact absurd rfl hune
  | cons c cs =>
    exact tm_none_head_cons c _ (fun he => hlt (hu.subset (he ▸ List.mem_cons_self c cs)))

theorem tails_tm_none (L : List Char)
    (hd : ∀ u ∈ L.tails, u = [] ∨ u.head? ≠ some '<' ∨ u = L)
    (u r : List Char) (hu : u <:+ L) (hune : u ≠ [])
    (hfull : tryMatch (L ++ r) = none) : tryMatch (u ++ r) = none := by
  rcases hd u ((List.mem_tails u L).mpr hu) with h | h | rfl
  · exact absurd h hune
  · cases u with
    | nil => exact absurd rfl hune
    | cons c cs =>
      exact tm_none_head_cons c _ (fun he => h (by simp [he]))
  · exact hfull

theorem tm_selfClosed_full (attrs : List Attr) (h : ∀ a ∈ attrs, cleanAttr a)
    (b : List Char) (hb : ¬ "<mxGeometry".data <+: b) :
    tryMatch ("<mxCell".data ++ ((attrsStr attrs ++ ['/']) ++ '>' :: b)) = none := by
  have hA2 : '>' ∉ attrsStr attrs ++ ['/'] := by
    intro hm
    rcases List.mem_append.mp hm with hm | hm
    · exact gt_not_mem_attrsStr attrs h hm
    · simp at hm
  unfold tryMatch
  rw [stripPre_pre, obind_some]
  rw [afterGt_eval _ _ hA2, obind_some]
  rw [stripPre_none _ _ hb, obind_none]

theorem tm_plain_full (attrs geom : List Attr) (ha : ∀ a ∈ attrs, cleanAttr a)
    (hg : ∀ g ∈ geom, geomAttrOK g) (b : List Char) :
    tryMatch ("<mxCell".data ++ (attrsStr attrs ++ '>' :: ("<mxGeometry".data ++
      ((attrsStr (geom.map convGeomAttr) ++ ['/']) ++ '>' ::
        ("</mxCell>".data ++ b))))) = none := by
  have hA : '>' ∉ attrsStr attrs := gt_not_mem_attrsStr attrs ha
  have hG2 : '>' ∉ attrsStr (geom.map convGeomAttr) ++ ['/'] := by
    intro hm
    rcases List.mem_append.mp hm with hm | hm
    · exact gt_not_mem_attrsStr _ (conv_clean_map geom hg) hm
    · simp at hm
  have hno : ¬ "<Object ".data <+: ("</mxCell>".data ++ b) :=
    not_prefix_of_getElem _ _ 1 (by decide)
      (by
        rw [List.getElem?_append_left
          (show (1 : Nat) < ("</mxCell>".data).length from by decide)]
        decide)
  unfold tryMatch
  rw [stripPre_pre, obind_some]
  rw [afterGt_eval _ _ hA, obind_some]
  rw [stripPre_pre, obind_some]
  rw [afterGt_eval _ _ hG2, obind_some]
  rw [takeWhile_notGt_eval _ _ hG2, List.getLast?_concat, if_pos rfl]
  rw [stripPre_none _ _ hno, obind_none]

theorem skip_open (b : List Char) :
    ∀ s2, s2 <:+ "<GraphDataModel>".data → s2 ≠ [] → tryMatch (s2 ++ b) = none :=
  fun s2 hs hne =>
    tails_tm_none _ (by decide) s2 b hs hne (tm_none_of_second 'G' _ (by decide))

theorem skip_close (b : List Char) :
    ∀ s2, s2 <:+ "</GraphDataModel>".data → s2 ≠ [] → tryMatch (s2 ++ b) = none :=
  fun s2 hs hne =>
    tails_tm_none _ (by decide) s2 b hs hne (tm_none_of_second '/' _ (by decide))

theorem skip_selfClosed (attrs : List Attr) (h : ∀ a ∈ attrs, cleanAttr a)
    (b : List Char) (hb : ¬ "<mxGeometry".data <+: b) :
    ∀ s2, s2 <:+ preFlat (.selfClosed attrs) → s2 ≠ [] → tryMatch (s2 ++ b) = none := by
  intro s2 hs hne
  have hshape : preFlat (.selfClosed attrs) =
      "<mxCell".data ++ (attrsStr attrs ++ "/>".data) := by
    simp [preFlat, genCell]
  rw [hshape] at hs
  have he2 : ∀ t : List Char, "/>".data ++ t = '/' :: '>' :: t := fun t => rfl
  have hfull : tryMatch (("<mxCell".data ++ (attrsStr attrs ++ "/>".data)) ++ b) = none := by
    rw [show ("<mxCell".data ++ (attrsStr attrs ++ "/>".data)) ++ b =
      "<mxCell".data ++ ((attrsStr attrs ++ ['/']) ++ '>' :: b) from by
        simp [List.append_assoc, he2]]
    exact tm_selfClosed_full attrs h b hb
  rcases suffix_append_cases s2 _ _ hs with h1 | ⟨t, ht, htne, rfl⟩
  · rcases suffix_append_cases s2 _ _ h1 with h2 | ⟨u, hu, hune, rfl⟩
    · exact tails_tm_none "/>".data (by decide) s2 b h2 hne
        (tm_none_head_cons '/' _ (by decide))
    · rw [List.append_assoc]
      exact tm_none_suffix_of_no_lt (attrsStr attrs) u _ (lt_not_mem_attrsStr attrs h)
        hu hune
  · rw [List.append_assoc]
    exact tails_tm_none "<mxCell".data (by decide) t _ ht htne
      (by simpa [List.append_assoc] using hfull)

theorem skip_plain (attrs geom : List Attr) (ha : ∀ a ∈ attrs, cleanAttr a)
    (hg : ∀ g ∈ geom, geomAttrOK g) (b : List Char) :
    ∀ s2, s2 <:+ preFlat (.plain attrs geom) → s2 ≠ [] → tryMatch (s2 ++ b) = none := by
  intro s2 hs hne
  have hshape : preFlat (.plain attrs geom) =
      "<mxCell".data ++ (attrsStr attrs ++ (">".data ++ ("<mxGeometry".data ++
        (attrsStr (geom.map convGeomAttr) ++ ("/>".data ++ "</mxCell>".data))))) := by
    simp [preFlat, genCell]
  rw [hshape] at hs
  have he : ∀ t : List Char, ">".data ++ t = '>' :: t := fun t => rfl
  have he2 : ∀ t : List Char, "/>".data ++ t = '/' :: '>' :: t := fun t => rfl
  have hfull : tryMatch (("<mxCell".data ++ (attrsStr attrs ++ (">".data ++
      ("<mxGeometry".data ++ (attrsStr (geom.map convGeomAttr) ++
        ("/>".data ++ "</mxCell>".data)))))) ++ b) = none := by
    rw [show ("<mxCell".data ++ (attrsStr attrs ++ (">".data ++ ("<mxGeometry".data ++
        (attrsStr (geom.map convGeomAttr) ++ ("/>".data ++ "</mxCell>".data)))))) ++ b =
      "<mxCell".data ++ (attrsStr attrs ++ '>' :: ("<mxGeometry".data ++
        ((attrsStr (geom.map convGeomAttr) ++ ['/']) ++ '>' ::
          ("</mxCell>".data ++ b)))) from by
        simp [List.append_assoc, he, he2]]
    exact tm_plain_full attrs geom ha hg b
  rcases suffix_append_cases s2 _ _ hs with h1 | ⟨t, ht, htne, rfl⟩
  · rcases suffix_append_cases s2 _ _ h1 with h2 | ⟨u, hu, hune, rfl⟩
    · rcases suffix_append_cases s2 _ _ h2 with h3 | ⟨w, hw, hwne, rfl⟩
      · rcases suffix_append_cases s2 _ _ h3 with h4 | ⟨w, hw, hwne, rfl⟩
        · rcases suffix_append_cases s2 _ _ h4 with h5 | ⟨u, hu, hune, rfl⟩
          · rcases suffix_append_cases s2 _ _ h5 with h6 | ⟨w, hw, hwne, rfl⟩
            · exact tails_tm_none "</mxCell>".data (by decide) s2 b h6 hne
                (tm_none_of_second '/' _ (by decide))
            · rw [List.append_assoc]
              exact tails_tm_none "/>".data (by decide) w _ hw hwne
                (tm_none_head_cons '/' _ (by decide))
          · rw [List.append_assoc]
            exact tm_none_suffix_of_no_lt (attrsStr (geom.map convGeomAttr)) u _
              (lt_not_mem_attrsStr _ (conv_clean_map geom hg)) hu hune
        · rw [List.append_assoc]
          exact tails_tm_none "<mxGeometry".data (by decide) w _ hw hwne
            (tm_none_lt4 'G' _ (by decide))
      · rw [List.append_assoc]
        exact tails_tm_none ">".data (by decide) w _ hw hwne
          (tm_none_head_cons '>' _ (by decide))
    · rw [List.append_assoc]
      exact tm_none_suffix_of_no_lt (attrsStr attrs) u _ (lt_not_mem_attrsStr attrs ha)
        hu hune
  · rw [List.append_assoc]
    exact tails_tm_none "<mxCell".data (by decide) t _ ht htne
      (by simpa [List.append_assoc] using hfull)

/-! ### The flattening pass over the whole document -/

theorem preFlat_head (c : NativeCell) : ∃ t, preFlat c = "<mxCell".data ++ t := by
  cases c with
  | selfClosed attrs =>
    exact ⟨attrsStr attrs ++ "/>".data, by simp [preFlat, genCell]⟩
  | plain attrs geom =>
    refine ⟨attrsStr attrs ++ ">".data ++ "<mxGeometry".data ++
      attrsStr (geom.map convGeomAttr) ++ "/>".data ++ "</mxCell>".data, ?_⟩
    simp [preFlat, genCell]
  | styled attrs geom pre post =>
    refine ⟨attrsStr attrs ++ ">".data ++ "<mxGeometry".data ++
      attrsStr (geom.map convGeomAttr) ++ "/>".data ++ "<Object".data ++ attrsStr pre ++
      " as=\"style\"".data ++ attrsStr post ++ "/>".data ++ "</mxCell>".data, ?_⟩
    simp [preFlat, genCell]

theorem body_no_geom_tag (cells : List NativeCell) :
    ¬ "<mxGeometry".data <+: ((cells.map preFlat).flatten ++ "</GraphDataModel>".data) := by
  cases cells with
  | nil =>
    rw [show (List.map preFlat []).flatten ++ "</GraphDataModel>".data =
      "</GraphDataModel>".data from by simp]
    decide
  | cons c cs =>
    obtain ⟨t, ht⟩ := preFlat_head c
    rw [List.map_cons, List.flatten_cons, ht]
    apply not_prefix_of_getElem _ _ 3 (by decide)
    rw [List.append_assoc, List.append_assoc]
    rw [List.getElem?_append_left (show (3 : Nat) < ("<mxCell".data).length from by decide)]
    decide

theorem flatten_cells : ∀ (cells : List NativeCell), (∀ c ∈ cells, cellOK c) →
    flattenStyles ((cells.map preFlat).flatten ++ "</GraphDataModel>".data) =
      (cells.map convertCell).flatten ++ "</GraphDataModel>".data := by
  intro cells
  induction cells with
  | nil =>
    intro _
    rw [show (List.map preFlat []).flatten ++ "</GraphDataModel>".data =
      "</GraphDataModel>".data ++ [] from by simp]
    rw [fs_skip_chunk _ _ (skip_close [])]
    rw [show flattenStyles ([] : List Char) = [] from rfl]
    simp
  | cons c cs ih =>
    intro h
    have hcs : ∀ x ∈ cs, cellOK x := fun x hx => h x (List.mem_cons_of_mem c hx)
    have hrest := ih hcs
    simp only [List.map_cons, List.flatten_cons, List.append_assoc]
    cases c with
    | selfClosed attrs =>
      rw [fs_skip_chunk _ _ (skip_selfClosed attrs (h _ (List.mem_cons_self _ _)) _
        (body_no_geom_tag cs))]
      rw [hrest]
      rfl
    | plain attrs geom =>
      rw [fs_skip_chunk _ _ (skip_plain attrs geom (h _ (List.mem_cons_self _ _)).1
        (h _ (List.mem_cons_self _ _)).2 _)]
      rw [hrest]
      rfl
    | styled attrs geom pre post =>
      have hcOK := h _ (List.mem_cons_self _ _)
      rw [fs_match_chunk (preFlat (.styled attrs geom pre post)) _ _
        (by obtain ⟨t, ht⟩ := preFlat_head (.styled attrs geom pre post); rw [ht]; simp)
        (tm_styled attrs geom pre post _ hcOK.1 hcOK.2.1 hcOK.2.2.1 hcOK.2.2.2)]
      rw [hrest]

theorem flatten_doc (d : NativeDoc) (h : WFdoc d) :
    flattenStyles ("<GraphDataModel>".data ++ (d.cells.map preFlat).flatten ++
      "</GraphDataModel>".data) =
    "<GraphDataModel>".data ++ (d.cells.map convertCell).flatten ++
      "</GraphDataModel>".data := by
  rw [List.append_assoc, List.append_assoc]
  rw [fs_skip_chunk _ _ (skip_open _)]
  rw [flatten_cells d.cells h]

/-! ### The wrapper-removal passes leave the converted cells untouched -/

theorem head_mem (l : List Char) (c : Char) (h : l.head? = some c) : c ∈ l := by
  cases l with
  | nil => exact Option.noConfusion h
  | cons x xs =>
    rw [← Option.some.inj h]
    exact List.mem_cons_self x xs

theorem mem_joinSemi (L : List (List Char)) (c : Char) :
    c ∈ joinSemi L → c = ';' ∨ ∃ x ∈ L, c ∈ x := by
  induction L with
  | nil => intro h; exact absurd h (by simp [joinSemi])
  | cons m ms ih =>
    intro h
    cases ms with
    | nil => exact Or.inr ⟨m, by simp, h⟩
    | cons m2 ms2 =>
      rw [show joinSemi (m :: m2 :: ms2) = m ++ ';' :: joinSemi (m2 :: ms2) from rfl] at h
      rcases List.mem_append.mp h with h | h
      · exact Or.inr ⟨m, by simp, h⟩
      rcases List.mem_cons.mp h with h | h
      · exact Or.inl h
      rcases ih h with h | ⟨x, hx, hcx⟩
      · exact Or.inl h
      · exact Or.inr ⟨x, List.mem_cons_of_mem m hx, hcx⟩

theorem lt_not_mem_styleBody (l : List Attr) (h : ∀ p ∈ l, styleAttrOK p) :
    '<' ∉ styleBody l := by
  intro hm
  rcases mem_joinSemi (l.map styleEntry) '<' hm with h1 | ⟨x, hx, hcx⟩
  · exact absurd h1 (by decide)
  · obtain ⟨a, ha, rfl⟩ := List.mem_map.mp hx
    have hcx2 : '<' ∈ a.name ++ '=' :: a.value := hcx
    rcases List.mem_append.mp hcx2 with h2 | h2
    · exact (cleanName_no_mark a.name (h a ha).1.1 '<' h2).1 rfl
    rcases List.mem_cons.mp h2 with h2 | h2
    · exact absurd h2 (by decide)
    · exact ((h a ha).1.2 '<' h2).1 rfl

theorem lt_not_mem_styleAttrStr (pre : List Attr) (h : ∀ p ∈ pre, styleAttrOK p) :
    '<' ∉ styleAttrStr pre := by
  unfold styleAttrStr
  by_cases hp : pre = []
  · rw [if_pos hp]; simp
  · rw [if_neg hp]
    intro hm
    rcases List.mem_append.mp hm with hm | hm
    · rcases List.mem_append.mp hm with hm | hm
      · exact absurd hm (by decide)
      · exact lt_not_mem_styleBody pre h hm
    · exact absurd hm (by decide)

theorem convertCell_last (c : NativeCell) : (convertCell c).getLast? = some '>' := by
  cases c with
  | selfClosed attrs =>
    show ("<mxCell".data ++ attrsStr attrs ++ "/>".data).getLast? = some '>'
    rw [List.getLast?_append_of_ne_nil _ (show "/>".data ≠ [] from by decide)]
    decide
  | plain attrs geom =>
    show (_ ++ "</mxCell>".data).getLast? = some '>'
    rw [List.getLast?_append_of_ne_nil _ (show "</mxCell>".data ≠ [] from by decide)]
    decide
  | styled attrs geom pre post =>
    show (_ ++ "</mxCell>".data).getLast? = some '>'
    rw [List.getLast?_append_of_ne_nil _ (show "</mxCell>".data ≠ [] from by decide)]
    decide

theorem sb_ni_append (pat a b : List Char)
    (ha : safeBoundary pat a ∧ ¬ pat <:+: a) (hb : safeBoundary pat b ∧ ¬ pat <:+: b) :
    safeBoundary pat (a ++ b) ∧ ¬ pat <:+: (a ++ b) :=
  ⟨sb_append _ _ _ ha.1 hb.1, not_infix_append _ _ _ ha.1 ha.2 hb.2⟩

theorem not_infix_convertCell (pat : List Char) (hh : pat.head? = some '<')
    (h1 : safeBoundary pat "<mxCell".data ∧ ¬ pat <:+: "<mxCell".data)
    (h2 : safeBoundary pat ">".data ∧ ¬ pat <:+: ">".data)
    (h3 : safeBoundary pat "/>".data ∧ ¬ pat <:+: "/>".data)
    (h4 : safeBoundary pat "<mxGeometry".data ∧ ¬ pat <:+: "<mxGeometry".data)
    (h5 : safeBoundary pat "</mxCell>".data ∧ ¬ pat <:+: "</mxCell>".data)
    (c : NativeCell) (hc : cellOK c) :
    safeBoundary pat (convertCell c) ∧ ¬ pat <:+: convertCell c := by
  have hattr : ∀ (l : List Attr), (∀ a ∈ l, cleanAttr a) →
      safeBoundary pat (attrsStr l) ∧ ¬ pat <:+: attrsStr l := fun l hl =>
    ⟨sb_of_head pat _ '<' hh (lt_not_mem_attrsStr l hl),
     not_infix_of_mem pat _ '<' (head_mem pat '<' hh) (lt_not_mem_attrsStr l hl)⟩
  cases c with
  | selfClosed attrs =>
    exact sb_ni_append _ _ _ (sb_ni_append _ _ _ h1 (hattr attrs hc)) h3
  | plain attrs geom =>
    exact sb_ni_append _ _ _ (sb_ni_append _ _ _ (sb_ni_append _ _ _ (sb_ni_append _ _ _
      (sb_ni_append _ _ _ (sb_ni_append _ _ _ h1 (hattr attrs hc.1)) h2) h4)
      (hattr _ (conv_clean_map geom hc.2))) h3) h5
  | styled attrs geom pre post =>
    have hlt : '<' ∉ styleAttrStr pre := lt_not_mem_styleAttrStr pre hc.2.2.1
    have hsty : safeBoundary pat (styleAttrStr pre) ∧ ¬ pat <:+: styleAttrStr pre :=
      ⟨sb_of_head pat _ '<' hh hlt, not_infix_of_mem pat _ '<' (head_mem pat '<' hh) hlt⟩
    exact sb_ni_append _ _ _ (sb_ni_append _ _ _ (sb_ni_append _ _ _ (sb_ni_append _ _ _
      (sb_ni_append _ _ _ (sb_ni_append _ _ _ (sb_ni_append _ _ _ h1 (hattr attrs hc.1))
        hsty) h2) h4)
      (hattr _ (conv_clean_map geom hc.2.1))) h3) h5

theorem conv_body_sb_ni (pat : List Char) (hne : pat ≠ []) (hh : pat.head? = some '<')
    (h1 : safeBoundary pat "<mxCell".data ∧ ¬ pat <:+: "<mxCell".data)
    (h2 : safeBoundary pat ">".data ∧ ¬ pat <:+: ">".data)
    (h3 : safeBoundary pat "/>".data ∧ ¬ pat <:+: "/>".data)
    (h4 : safeBoundary pat "<mxGeometry".data ∧ ¬ pat <:+: "<mxGeometry".data)
    (h5 : safeBoundary pat "</mxCell>".data ∧ ¬ pat <:+: "</mxCell>".data) :
    ∀ (cells : List NativeCell), (∀ c ∈ cells, cellOK c) →
      safeBoundary pat ((cells.map convertCell).flatten) ∧
        ¬ pat <:+: (cells.map convertCell).flatten := by
  intro cells
  induction cells with
  | nil =>
    intro _
    exact ⟨sb_nil pat, fun hi => hne (List.sublist_nil.mp hi.sublist)⟩
  | cons c cs ih =>
    intro h
    simp only [List.map_cons, List.flatten_cons]
    exact sb_ni_append _ _ _
      (not_infix_convertCell pat hh h1 h2 h3 h4 h5 c (h c (List.mem_cons_self c cs)))
      (ih (fun x hx => h x (List.mem_cons_of_mem c hx)))

/-- The central correctness equation of the embedded converter: on a
well-formed native document the pipeline produces exactly the
concatenation of the per-cell conversions. -/
theorem convertL_doc (d : NativeDoc) (h : WFdoc d) :
    convertL (docStr d) = (d.cells.map convertCell).flatten := by
  have hclose := conv_body_sb_ni "</GraphDataModel>".data (by decide) (by decide)
    ⟨by decide, by decide⟩ ⟨by decide, by decide⟩ ⟨by decide, by decide⟩
    ⟨by decide, by decide⟩ ⟨by decide, by decide⟩ d.cells h
  unfold convertL
  rw [stage8_doc d h]
  rw [flatten_doc d h]
  rw [List.append_assoc]
  rw [rf_head "<GraphDataModel>".data [] _ (by decide)]
  rw [List.nil_append]
  rw [rf_append "</GraphDataModel>".data [] _ _ hclose.2 hclose.1]
  rw [show replaceFirstL "</GraphDataModel>".data [] "</GraphDataModel>".data = []
    from by decide]
  rw [List.append_nil]

/-! ### Counting cell tags in input and output -/

theorem cnt_pieces (pat : List Char) : ∀ (L : List (List Char)),
    (∀ x ∈ L, safeBoundary pat x) →
    countSubstr pat L.flatten = (L.map (countSubstr pat)).sum := by
  intro L
  induction L with
  | nil => intro _; rfl
  | cons x xs ih =>
    intro h
    rw [List.flatten_cons, csub_append pat x xs.flatten (h x (List.mem_cons_self x xs))]
    rw [ih (fun y hy => h y (List.mem_cons_of_mem x hy))]
    rfl

theorem sum_ones (l : List NativeCell) : (l.map (fun _ => (1 : Nat))).sum = l.length := by
  induction l with
  | nil => rfl
  | cons a l ih => simp [ih, Nat.add_comm]

theorem cellStr_last (c : NativeCell) : (cellStr c).getLast? = some '>' := by
  cases c with
  | selfClosed attrs =>
    show ("<Cell".data ++ attrsStr attrs ++ "/>".data).getLast? = some '>'
    rw [List.getLast?_append_of_ne_nil _ (show "/>".data ≠ [] from by decide)]
    decide
  | plain attrs geom =>
    show (_ ++ "</Cell>".data).getLast? = some '>'
    rw [List.getLast?_append_of_ne_nil _ (show "</Cell>".data ≠ [] from by decide)]
    decide
  | styled attrs geom pre post =>
    show (_ ++ "</Cell>".data).getLast? = some '>'
    rw [List.getLast?_append_of_ne_nil _ (show "</Cell>".data ≠ [] from by decide)]
    decide

theorem cnt_cellStr (c : NativeCell) (hc : cellOK c) :
    countSubstr "<Cell".data (cellStr c) = 1 := by
  cases c with
  | selfClosed attrs =>
    rw [show cellStr (.selfClosed attrs) =
      ["<Cell".data, attrsStr attrs, "/>".data].flatten from by simp [cellStr]]
    rw [cnt_pieces _ _ (by
      intro x hx
      simp only [List.mem_cons, List.not_mem_nil, or_false] at hx
      rcases hx with rfl | rfl | rfl
      · decide
      · exact sb_of_head _ _ '<' (by decide) (lt_not_mem_attrsStr attrs hc)
      · decide)]
    simp only [List.map_cons, List.map_nil, List.sum_cons, List.sum_nil]
    rw [show countSubstr "<Cell".data "<Cell".data = 1 from by decide]
    rw [csub_eq_zero _ _ (not_infix_of_mem _ _ '<' (by decide)
      (lt_not_mem_attrsStr attrs hc))]
    rw [show countSubstr "<Cell".data "/>".data = 0 from by decide]
    omega
  | plain attrs geom =>
    rw [show cellStr (.plain attrs geom) =
      ["<Cell".data, attrsStr attrs, ">".data, "<Geometry".data, attrsStr geom,
        "/>".data, "</Cell>".data].flatten from by simp [cellStr]]
    rw [cnt_pieces _ _ (by
      intro x hx
      simp only [List.mem_cons, List.not_mem_nil, or_false] at hx
      rcases hx with rfl | rfl | rfl | rfl | rfl | rfl | rfl
      · decide
      · exact sb_of_head _ _ '<' (by decide) (lt_not_mem_attrsStr attrs hc.1)
      · decide
      · decide
      · exact sb_of_head _ _ '<' (by decide) (lt_not_mem_geomStr geom hc.2)
      · decide
      · decide)]
    simp only [List.map_cons, List.map_nil, List.sum_cons, List.sum_nil]
    rw [show countSubstr "<Cell".data "<Cell".data = 1 from by decide]
    rw [csub_eq_zero _ _ (not_infix_of_mem _ _ '<' (by decide)
      (lt_not_mem_attrsStr attrs hc.1))]
    rw [csub_eq_zero _ _ (not_infix_of_mem _ _ '<' (by decide)
      (lt_not_mem_geomStr geom hc.2))]
    rw [show countSubstr "<Cell".data ">".data = 0 from by decide]
    rw [show countSubstr "<Cell".data "<Geometry".data = 0 from by decide]
    rw [show countSubstr "<Cell".data "/>".data = 0 from by decide]
    rw [show countSubstr "<Cell".data "</Cell>".data = 0 from by decide]
    omega
  | styled attrs geom pre post =>
    rw [show cellStr (.styled attrs geom pre post) =
      ["<Cell".data, attrsStr attrs, ">".data, "<Geometry".data, attrsStr geom,
        "/>".data, "<Object".data, attrsStr pre, " as=\"style\"".data, attrsStr post,
        "/>".data, "</Cell>".data].flatten from by simp [cellStr]]
    rw [cnt_pieces _ _ (by
      intro x hx
      simp only [List.mem_cons, List.not_mem_nil, or_false] at hx
      rcases hx with rfl | rfl | rfl | rfl | rfl | rfl | rfl | rfl | rfl | rfl | rfl | rfl
      · decide
      · exact sb_of_head _ _ '<' (by decide) (lt_not_mem_attrsStr attrs hc.1)
      · decide
      · decide
      · exact sb_of_head _ _ '<' (by decide) (lt_not_mem_geomStr geom hc.2.1)
      · decide
      · decide
      · exact sb_of_head _ _ '<' (by decide)
          (lt_not_mem_attrsStr pre (fun p hp => (hc.2.2.1 p hp).1))
      · decide
      · exact sb_of_head _ _ '<' (by decide) (lt_not_mem_attrsStr post hc.2.2.2)
      · decide
      · decide)]
    simp only [List.map_cons, List.map_nil, List.sum_cons, List.sum_nil]
    rw [show countSubstr "<Cell".data "<Cell".data = 1 from by decide]
    rw [csub_eq_zero _ _ (not_infix_of_mem _ _ '<' (by decide)
      (lt_not_mem_attrsStr attrs hc.1))]
    rw [csub_eq_zero _ _ (not_infix_of_mem _ _ '<' (by decide)
      (lt_not_mem_geomStr geom hc.2.1))]
    rw [csub_eq_zero _ _ (not_infix_of_mem _ _ '<' (by decide)
      (lt_not_mem_attrsStr pre (fun p hp => (hc.2.2.1 p hp).1)))]
    rw [csub_eq_zero _ _ (not_infix_of_mem _ _ '<' (by decide)
      (lt_not_mem_attrsStr post hc.2.2.2))]
    rw [show countSubstr "<Cell".data ">".data = 0 from by decide]
    rw [show countSubstr "<Cell".data "<Geometry".data = 0 from by decide]
    rw [show countSubstr "<Cell".data "/>".data = 0 from by decide]
    rw [show countSubstr "<Cell".data "<Object".data = 0 from by decide]
    rw [show countSubstr "<Cell".data " as=\"style\"".data = 0 from by decide]
    rw [show countSubstr "<Cell".data "</Cell>".data = 0 from by decide]
    omega

theorem cnt_convertCell (c : NativeCell) (hc : cellOK c) :
    countSubstr "<mxCell".data (convertCell c) = 1 := by
  cases c with
  | selfClosed attrs =>
    rw [show convertCell (.selfClosed attrs) =
      ["<mxCell".data, attrsStr attrs, "/>".data].flatten from by simp [convertCell]]
    rw [cnt_pieces _ _ (by
      intro x hx
      simp only [List.mem_cons, List.not_mem_nil, or_false] at hx
      rcases hx with rfl | rfl | rfl
      · decide
      · exact sb_of_head _ _ '<' (by decide) (lt_not_mem_attrsStr attrs hc)
      · decide)]
    simp only [List.map_cons, List.map_nil, List.sum_cons, List.sum_nil]
    rw [show countSubstr "<mxCell".data "<mxCell".data = 1 from by decide]
    rw [csub_eq_zero _ _ (not_infix_of_mem _ _ '<' (by decide)
      (lt_not_mem_attrsStr attrs hc))]
    rw [show countSubstr "<mxCell".data "/>".data = 0 from by decide]
    omega
  | plain attrs geom =>
    rw [show convertCell (.plain attrs geom) =
      ["<mxCell".data, attrsStr attrs, ">".data, "<mxGeometry".data,
        attrsStr (geom.map convGeomAttr), "/>".data, "</mxCell>".data].flatten
      from by simp [convertCell]]
    rw [cnt_pieces _ _ (by
      intro x hx
      simp only [List.mem_cons, List.not_mem_nil, or_false] at hx
      rcases hx with rfl | rfl | rfl | rfl | rfl | rfl | rfl
      · decide
      · exact sb_of_head _ _ '<' (by decide) (lt_not_mem_attrsStr attrs hc.1)
      · decide
      · decide
      · exact sb_of_head _ _ '<' (by decide)
          (lt_not_mem_attrsStr _ (conv_clean_map geom hc.2))
      · decide
      · decide)]
    simp only [List.map_cons, List.map_nil, List.sum_cons, List.sum_nil]
    rw [show countSubstr "<mxCell".data "<mxCell".data = 1 from by decide]
    rw [csub_eq_zero _ _ (not_infix_of_mem _ _ '<' (by decide)
      (lt_not_mem_attrsStr attrs hc.1))]
    rw [csub_eq_zero _ _ (not_infix_of_mem _ _ '<' (by decide)
      (lt_not_mem_attrsStr _ (conv_clean_map geom hc.2)))]
    rw [show countSubstr "<mxCell".data ">".data = 0 from by decide]
    rw [show countSubstr "<mxCell".data "<mxGeometry".data = 0 from by decide]
    rw [show countSubstr "<mxCell".data "/>".data = 0 from by decide]
    rw [show countSubstr "<mxCell".data "</mxCell>".data = 0 from by decide]
    omega
  | styled attrs geom pre post =>
    rw [show convertCell (.styled attrs geom pre post) =
      ["<mxCell".data, attrsStr attrs, styleAttrStr pre, ">".data, "<mxGeometry".data,
        attrsStr (geom.map convGeomAttr), "/>".data, "</mxCell>".data].flatten
      from by simp [convertCell]]
    rw [cnt_pieces _ _ (by
      intro x hx
      simp only [List.mem_cons, List.not_mem_nil, or_false] at hx
      rcases hx with rfl | rfl | rfl | rfl | rfl | rfl | rfl | rfl
      · decide
      · exact sb_of_head _ _ '<' (by decide) (lt_not_mem_attrsStr attrs hc.1)
      · exact sb_of_head _ _ '<' (by decide) (lt_not_mem_styleAttrStr pre hc.2.2.1)
      · decide
      · decide
      · exact sb_of_head _ _ '<' (by decide)
          (lt_not_mem_attrsStr _ (conv_clean_map geom hc.2.1))
      · decide
      · decide)]
    simp only [List.map_cons, List.map_nil, List.sum_cons, List.sum_nil]
    rw [show countSubstr "<mxCell".data "<mxCell".data = 1 from by decide]
    rw [csub_eq_zero _ _ (not_infix_of_mem _ _ '<' (by decide)
      (lt_not_mem_attrsStr attrs hc.1))]
    rw [csub_eq_zero _ _ (not_infix_of_mem _ _ '<' (by decide)
      (lt_not_mem_styleAttrStr pre hc.2.2.1))]
    rw [csub_eq_zero _ _ (not_infix_of_mem _ _ '<' (by decide)
      (lt_not_mem_attrsStr _ (conv_clean_map geom hc.2.1)))]
    rw [show countSubstr "<mxCell".data ">".data = 0 from by decide]
    rw [show countSubstr "<mxCell".data "<mxGeometry".data = 0 from by decide]
    rw [show countSubstr "<mxCell".data "/>".data = 0 from by decide]
    rw [show countSubstr "<mxCell".data "</mxCell>".data = 0 from by decide]
    omega

theorem cnt_doc_in (d : NativeDoc) (h : WFdoc d) :
    countSubstr "<Cell".data (docStr d) = d.cells.length := by
  have hsbchunks : ∀ x ∈ d.cells.map cellStr, safeBoundary "<Cell".data x := by
    intro x hx
    obtain ⟨c, hcmem, rfl⟩ := List.mem_map.mp hx
    exact sb_of_getLast _ _ '>' (cellStr_last c) (by decide)
  rw [show docStr d = ["<GraphDataModel>".data, (d.cells.map cellStr).flatten,
    "</GraphDataModel>".data].flatten from by simp [docStr]]
  rw [cnt_pieces _ _ (by
    intro x hx
    simp only [List.mem_cons, List.not_mem_nil, or_false] at hx
    rcases hx with rfl | rfl | rfl
    · decide
    · exact sb_flatten _ _ hsbchunks
    · decide)]
  simp only [List.map_cons, List.map_nil, List.sum_cons, List.sum_nil]
  rw [show countSubstr "<Cell".data "<GraphDataModel>".data = 0 from by decide]
  rw [show countSubstr "<Cell".data "</GraphDataModel>".data = 0 from by decide]
  rw [cnt_pieces _ _ hsbchunks]
  rw [List.map_map]
  rw [List.map_congr_left (fun c hcm =>
    show (countSubstr "<Cell".data ∘ cellStr) c = (fun _ => (1 : Nat)) c from
      cnt_cellStr c (h c hcm))]
  rw [sum_ones]
  omega

theorem cnt_doc_out (d : NativeDoc) (h : WFdoc d) :
    countSubstr "<mxCell".data ((d.cells.map convertCell).flatten) = d.cells.length := by
  rw [cnt_pieces _ _ (by
    intro x hx
    obtain ⟨c, hcmem, rfl⟩ := List.mem_map.mp hx
    exact sb_of_getLast _ _ '>' (convertCell_last c) (by decide))]
  rw [List.map_map]
  rw [List.map_congr_left (fun c hcm =>
    show (countSubstr "<mxCell".data ∘ convertCell) c = (fun _ => (1 : Nat)) c from
      cnt_convertCell c (h c hcm))]
  exact sum_ones d.cells

/-! ### The claims -/

/-- C1: on a well-formed native document the converter emits exactly the
per-cell conversions, and a cell whose style descriptor carries
`fillColor="#FF9900"` then `rounded="true"` before the discriminator is
emitted with the attribute ` style="fillColor=#FF9900;rounded=true;"` on
its opening tag — values unquoted, joined by `;` with a trailing `;`, in
source order — placed before the retained self-closing geometry child,
with the descriptor element gone. -/
theorem C1_style_flatten_exact (d : NativeDoc) (h : WFdoc d)
    (attrs geom post : List Attr) :
    convertMaxGraphToDrawIO (docString d) =
      String.mk ((d.cells.map convertCell).flatten) ∧
    convertCell (.styled attrs geom
        [⟨"fillColor".data, "#FF9900".data⟩, ⟨"rounded".data, "true".data⟩] post) =
      "<mxCell".data ++ attrsStr attrs ++
        " style=\"fillColor=#FF9900;rounded=true;\"".data ++ ">".data ++
        "<mxGeometry".data ++ attrsStr (geom.map convGeomAttr) ++ "/>".data ++
        "</mxCell>".data := by
  constructor
  · show String.mk (convertL (docStr d)) = _
    rw [convertL_doc d h]
  · show "<mxCell".data ++ attrsStr attrs ++
      styleAttrStr [⟨"fillColor".data, "#FF9900".data⟩, ⟨"rounded".data, "true".data⟩] ++
      ">".data ++ "<mxGeometry".data ++ attrsStr (geom.map convGeomAttr) ++ "/>".data ++
      "</mxCell>".data = _
    rw [show styleAttrStr
        [⟨"fillColor".data, "#FF9900".data⟩, ⟨"rounded".data, "true".data⟩] =
      " style=\"fillColor=#FF9900;rounded=true;\"".data from by decide]

set_option maxRecDepth 10000 in
theorem C1_style_flatten_exact_witness :
    WFdoc dStyled ∧
    ( convertMaxGraphToDrawIO (docString dStyled) =
        String.mk ((dStyled.cells.map convertCell).flatten) ∧
      convertCell (.styled [⟨"id".data, "a".data⟩] [⟨"_x".data, "1".data⟩]
          [⟨"fillColor".data, "#FF9900".data⟩, ⟨"rounded".data, "true".data⟩] []) =
        "<mxCell".data ++ attrsStr [⟨"id".data, "a".data⟩] ++
          " style=\"fillColor=#FF9900;rounded=true;\"".data ++ ">".data ++
          "<mxGeometry".data ++
          attrsStr (List.map convGeomAttr [⟨"_x".data, "1".data⟩]) ++ "/>".data ++
          "</mxCell>".data) :=
  ⟨by decide, C1_style_flatten_exact dStyled (by decide)
    [⟨"id".data, "a".data⟩] [⟨"_x".data, "1".data⟩] []⟩

set_option maxRecDepth 10000 in
/-- C2 counterexample: the underscore-stripping replace is a global text
rewrite, not one restricted to geometry elements.  In this input the
pattern `_x="` occurs only inside a cell attribute name (there is no
geometry element at all), yet the converter rewrites it: `label_x="v"`
comes out as `labelx="v"`. -/
theorem C2_counterexample_underscore_outside_geometry :
    convertMaxGraphToDrawIO "<GraphDataModel><Cell label_x=\"v\"></Cell></GraphDataModel>" =
      "<mxCell labelx=\"v\"></mxCell>" ∧
    countSubstr "label_x".data
      ("<GraphDataModel><Cell label_x=\"v\"></Cell></GraphDataModel>".data) = 1 ∧
    countSubstr "label_x".data ("<mxCell labelx=\"v\"></mxCell>".data) = 0 := by
  refine ⟨?_, ?_, ?_⟩ <;> decide

/-- C2 (amended): the four underscore-stripping rewrites are global,
position-independent text replacements; on well-formed builder documents
the patterns occur only in geometry attributes, so there the effect is
exactly the un-prefixing of `_x`, `_y`, `_width`, `_height`, and the
whole conversion equals the per-cell conversion. -/
theorem C2_amended_underscore_global (d : NativeDoc) (h : WFdoc d) (v : List Char) :
    convertMaxGraphToDrawIO (docString d) =
      String.mk ((d.cells.map convertCell).flatten) ∧
    convGeomAttr ⟨"_x".data, v⟩ = ⟨"x".data, v⟩ ∧
    convGeomAttr ⟨"_y".data, v⟩ = ⟨"y".data, v⟩ ∧
    convGeomAttr ⟨"_width".data, v⟩ = ⟨"width".data, v⟩ ∧
    convGeomAttr ⟨"_height".data, v⟩ = ⟨"height".data, v⟩ := by
  refine ⟨?_, rfl, rfl, rfl, rfl⟩
  show String.mk (convertL (docStr d)) = _
  rw [convertL_doc d h]

set_option maxRecDepth 10000 in
theorem C2_amended_underscore_global_witness :
    WFdoc dPlainDoc ∧
    ( convertMaxGraphToDrawIO (docString dPlainDoc) =
        String.mk ((dPlainDoc.cells.map convertCell).flatten) ∧
      convGeomAttr ⟨"_x".data, "9".data⟩ = ⟨"x".data, "9".data⟩ ∧
      convGeomAttr ⟨"_y".data, "9".data⟩ = ⟨"y".data, "9".data⟩ ∧
      convGeomAttr ⟨"_width".data, "9".data⟩ = ⟨"width".data, "9".data⟩ ∧
      convGeomAttr ⟨"_height".data, "9".data⟩ = ⟨"height".data, "9".data⟩) :=
  ⟨by decide, C2_amended_underscore_global dPlainDoc (by decide) "9".data⟩

set_option maxRecDepth 10000 in
/-- C3 counterexample: the flattening regex captures only the descriptor
attributes written before the `as="style"` discriminator.  Here the
descriptor is `<Object fillColor="#FF9900" as="style" rounded="true"/>`
— a well-formed builder document — but `rounded` is absent from the
flattened style. -/
theorem C3_counterexample_post_attr_dropped :
    WFdoc dPost ∧
    convertMaxGraphToDrawIO (docString dPost) =
      "<mxCell id=\"a\" style=\"fillColor=#FF9900;\"><mxGeometry x=\"1\"/></mxCell>" ∧
    countSubstr "rounded".data ((docString dPost).data) = 1 ∧
    countSubstr "rounded".data
      ("<mxCell id=\"a\" style=\"fillColor=#FF9900;\"><mxGeometry x=\"1\"/></mxCell>".data)
      = 0 := by
  refine ⟨?_, ?_, ?_, ?_⟩ <;> decide

/-- C3 (amended): the flattened style holds exactly the key/value pairs
written before the discriminator, in order; attributes after the
discriminator are matched away and dropped — the conversion of a styled
cell does not depend on them at all. -/
theorem C3_amended_pre_discriminator_only (d : NativeDoc) (h : WFdoc d)
    (attrs geom pre post : List Attr) :
    convertMaxGraphToDrawIO (docString d) =
      String.mk ((d.cells.map convertCell).flatten) ∧
    convertCell (.styled attrs geom pre post) =
      convertCell (.styled attrs geom pre []) ∧
    convertCell (.styled attrs geom pre post) =
      "<mxCell".data ++ attrsStr attrs ++ styleAttrStr pre ++ ">".data ++
      "<mxGeometry".data ++ attrsStr (geom.map convGeomAttr) ++ "/>".data ++
      "</mxCell>".data := by
  refine ⟨?_, rfl, rfl⟩
  show String.mk (convertL (docStr d)) = _
  rw [convertL_doc d h]

set_option maxRecDepth 10000 in
theorem C3_amended_pre_discriminator_only_witness :
    WFdoc dPost ∧
    ( convertMaxGraphToDrawIO (docString dPost) =
        String.mk ((dPost.cells.map convertCell).flatten) ∧
      convertCell (.styled [⟨"id".data, "a".data⟩] [⟨"_x".data, "1".data⟩]
          [⟨"fillColor".data, "#FF9900".data⟩] [⟨"rounded".data, "true".data⟩]) =
        convertCell (.styled [⟨"id".data, "a".data⟩] [⟨"_x".data, "1".data⟩]
          [⟨"fillColor".data, "#FF9900".data⟩] []) ∧
      convertCell (.styled [⟨"id".data, "a".data⟩] [⟨"_x".data, "1".data⟩]
          [⟨"fillColor".data, "#FF9900".data⟩] [⟨"rounded".data, "true".data⟩]) =
        "<mxCell".data ++ attrsStr [⟨"id".data, "a".data⟩] ++
          styleAttrStr [⟨"fillColor".data, "#FF9900".data⟩] ++ ">".data ++
          "<mxGeometry".data ++
          attrsStr (List.map convGeomAttr [⟨"_x".data, "1".data⟩]) ++ "/>".data ++
          "</mxCell>".data) :=
  ⟨by decide, C3_amended_pre_discriminator_only dPost (by decide)
    [⟨"id".data, "a".data⟩] [⟨"_x".data, "1".data⟩]
    [⟨"fillColor".data, "#FF9900".data⟩] [⟨"rounded".data, "true".data⟩]⟩

/-- C4: on every well-formed native document the output holds exactly as
many `<mxCell` tags as the input holds `<Cell` tags, namely one per
cell: no cell is dropped or duplicated. -/
theorem C4_cell_count_preserved (d : NativeDoc) (h : WFdoc d) :
    countSubstr "<mxCell".data (( convertMaxGraphToDrawIO (docString d)).data) =
      countSubstr "<Cell".data ((docString d).data) ∧
    countSubstr "<Cell".data ((docString d).data) = d.cells.length := by
  have h0 : convertMaxGraphToDrawIO (docString d) =
      String.mk ((d.cells.map convertCell).flatten) := by
    show String.mk (convertL (docStr d)) = _
    rw [convertL_doc d h]
  have h1 : ( convertMaxGraphToDrawIO (docString d)).data =
      (d.cells.map convertCell).flatten := by
    rw [h0]
  have h2 : countSubstr "<Cell".data ((docString d).data) = d.cells.length :=
    cnt_doc_in d h
  refine ⟨?_, h2⟩
  rw [h1, cnt_doc_out d h, h2]

set_option maxRecDepth 10000 in
theorem C4_cell_count_preserved_witness :
    WFdoc dMix ∧
    (countSubstr "<mxCell".data (( convertMaxGraphToDrawIO (docString dMix)).data) =
        countSubstr "<Cell".data ((docString dMix).data) ∧
      countSubstr "<Cell".data ((docString dMix).data) = dMix.cells.length) :=
  ⟨by decide, C4_cell_count_preserved dMix (by decide)⟩

/-- C5: on every well-formed native document the wrapper tags
`<GraphDataModel>` and `</GraphDataModel>` occur nowhere in the output,
while the output is exactly the concatenation of the converted inner
cells. -/
theorem C5_wrapper_removed (d : NativeDoc) (h : WFdoc d) :
    ( convertMaxGraphToDrawIO (docString d)).data =
      (d.cells.map convertCell).flatten ∧
    countSubstr "<GraphDataModel>".data (( convertMaxGraphToDrawIO (docString d)).data) = 0 ∧
    countSubstr "</GraphDataModel>".data (( convertMaxGraphToDrawIO (docString d)).data)
      = 0 := by
  have h0 : convertMaxGraphToDrawIO (docString d) =
      String.mk ((d.cells.map convertCell).flatten) := by
    show String.mk (convertL (docStr d)) = _
    rw [convertL_doc d h]
  have h1 : ( convertMaxGraphToDrawIO (docString d)).data =
      (d.cells.map convertCell).flatten := by
    rw [h0]
  have hopen := conv_body_sb_ni "<GraphDataModel>".data (by decide) (by decide)
    ⟨by decide, by decide⟩ ⟨by decide, by decide⟩ ⟨by decide, by decide⟩
    ⟨by decide, by decide⟩ ⟨by decide, by decide⟩ d.cells h
  have hclose := conv_body_sb_ni "</GraphDataModel>".data (by decide) (by decide)
    ⟨by decide, by decide⟩ ⟨by decide, by decide⟩ ⟨by decide, by decide⟩
    ⟨by decide, by decide⟩ ⟨by decide, by decide⟩ d.cells h
  refine ⟨h1, ?_, ?_⟩
  · rw [h1]
    exact csub_eq_zero _ _ hopen.2
  · rw [h1]
    exact csub_eq_zero _ _ hclose.2

set_option maxRecDepth 10000 in
theorem C5_wrapper_removed_witness :
    WFdoc dMix2 ∧
    (( convertMaxGraphToDrawIO (docString dMix2)).data =
        (dMix2.cells.map convertCell).flatten ∧
      countSubstr "<GraphDataModel>".data
        (( convertMaxGraphToDrawIO (docString dMix2)).data) = 0 ∧
      countSubstr "</GraphDataModel>".data
        (( convertMaxGraphToDrawIO (docString dMix2)).data) = 0) :=
  ⟨by decide, C5_wrapper_removed dMix2 (by decide)⟩

/-- C6: on every well-formed native document the converter's output is
the per-cell conversion, in which each geometry attribute keeps its
value unchanged while the prefixed names `_x`, `_y`, `_width`, `_height`
become the bare `x`, `y`, `width`, `height`. -/
theorem C6_geometry_values_preserved (d : NativeDoc) (h : WFdoc d) (a : Attr) :
    convertMaxGraphToDrawIO (docString d) =
      String.mk ((d.cells.map convertCell).flatten) ∧
    (convGeomAttr a).value = a.value ∧
    (a.name = "_x".data → (convGeomAttr a).name = "x".data) ∧
    (a.name = "_y".data → (convGeomAttr a).name = "y".data) ∧
    (a.name = "_width".data → (convGeomAttr a).name = "width".data) ∧
    (a.name = "_height".data → (convGeomAttr a).name = "height".data) := by
  refine ⟨?_, rfl, ?_, ?_, ?_, ?_⟩
  · show String.mk (convertL (docStr d)) = _
    rw [convertL_doc d h]
  · intro hx
    show stripGeomName a.name = "x".data
    rw [hx]
    decide
  · intro hy
    show stripGeomName a.name = "y".data
    rw [hy]
    decide
  · intro hw
    show stripGeomName a.name = "width".data
    rw [hw]
    decide
  · intro hh
    show stripGeomName a.name = "height".data
    rw [hh]
    decide

set_option maxRecDepth 10000 in
theorem C6_geometry_values_preserved_witness :
    WFdoc dMix2 ∧
    ( convertMaxGraphToDrawIO (docString dMix2) =
        String.mk ((dMix2.cells.map convertCell).flatten) ∧
      (convGeomAttr ⟨"_x".data, "5".data⟩).value = "5".data ∧
      (Attr.name ⟨"_x".data, "5".data⟩ = "_x".data →
        (convGeomAttr ⟨"_x".data, "5".data⟩).name = "x".data) ∧
      (Attr.name ⟨"_x".data, "5".data⟩ = "_y".data →
        (convGeomAttr ⟨"_x".data, "5".data⟩).name = "y".data) ∧
      (Attr.name ⟨"_x".data, "5".data⟩ = "_width".data →
        (convGeomAttr ⟨"_x".data, "5".data⟩).name = "width".data) ∧
      (Attr.name ⟨"_x".data, "5".data⟩ = "_height".data →
        (convGeomAttr ⟨"_x".data, "5".data⟩).name = "height".data)) :=
  ⟨by decide, C6_geometry_values_preserved dMix2 (by decide) ⟨"_x".data, "5".data⟩⟩

/-- C7: a cell with no style-descriptor child passes through with its
cell and geometry tags renamed, its attributes unchanged, and no
`style` attribute synthesized; the whole conversion of a well-formed
document is the concatenation of such per-cell outputs. -/
theorem C7_no_descriptor_passthrough (d : NativeDoc) (h : WFdoc d)
    (attrs geom : List Attr) :
    convertMaxGraphToDrawIO (docString d) =
      String.mk ((d.cells.map convertCell).flatten) ∧
    convertCell (.plain attrs geom) =
      "<mxCell".data ++ attrsStr attrs ++ ">".data ++
      "<mxGeometry".data ++ attrsStr (geom.map convGeomAttr) ++ "/>".data ++
      "</mxCell>".data ∧
    convertCell (.selfClosed attrs) =
      "<mxCell".data ++ attrsStr attrs ++ "/>".data := by
  refine ⟨?_, rfl, rfl⟩
  show String.mk (convertL (docStr d)) = _
  rw [convertL_doc d h]

set_option maxRecDepth 10000 in
theorem C7_no_descriptor_passthrough_witness :
    WFdoc dPlainDoc ∧
    ( convertMaxGraphToDrawIO (docString dPlainDoc) =
        String.mk ((dPlainDoc.cells.map convertCell).flatten) ∧
      convertCell (.plain [⟨"id".data, "t".data⟩] [⟨"_x".data, "2".data⟩]) =
        "<mxCell".data ++ attrsStr [⟨"id".data, "t".data⟩] ++ ">".data ++
        "<mxGeometry".data ++
        attrsStr (List.map convGeomAttr [⟨"_x".data, "2".data⟩]) ++ "/>".data ++
        "</mxCell>".data ∧
      convertCell (.selfClosed [⟨"id".data, "t".data⟩]) =
        "<mxCell".data ++ attrsStr [⟨"id".data, "t".data⟩] ++ "/>".data) :=
  ⟨by decide, C7_no_descriptor_passthrough dPlainDoc (by decide)
    [⟨"id".data, "t".data⟩] [⟨"_x".data, "2".data⟩]⟩

/-- C8: the converter is a total function: on every well-formed builder
document it terminates normally with a definite output string — the
embedding has no failure branch, mirroring the straight-line replace
pipeline of the source. -/
theorem C8_total_on_builder_output (d : NativeDoc) (h : WFdoc d) :
    ∃ out : String, convertMaxGraphToDrawIO (docString d) = out ∧
      out = String.mk ((d.cells.map convertCell).flatten) := by
  refine ⟨ convertMaxGraphToDrawIO (docString d), rfl, ?_⟩
  show String.mk (convertL (docStr d)) = _
  rw [convertL_doc d h]

set_option maxRecDepth 10000 in
theorem C8_total_on_builder_output_witness :
    WFdoc dEmptySty ∧
    (∃ out : String, convertMaxGraphToDrawIO (docString dEmptySty) = out ∧
      out = String.mk ((dEmptySty.cells.map convertCell).flatten)) :=
  ⟨by decide, C8_total_on_builder_output dEmptySty (by decide)⟩

/-- C9: the converter is a pure deterministic function of its input
text: it factors through the character list of its argument, and equal
inputs give equal outputs. -/
theorem C9_pure_deterministic (s t : String) (h : s = t) :
    convertMaxGraphToDrawIO s = convertMaxGraphToDrawIO t ∧
    convertMaxGraphToDrawIO s = String.mk (convertL s.data) := by
  refine ⟨?_, rfl⟩
  rw [h]

set_option maxRecDepth 10000 in
theorem C9_pure_deterministic_witness :
    "<Cell/>" = "<Cell/>" ∧
    ( convertMaxGraphToDrawIO "<Cell/>" = convertMaxGraphToDrawIO "<Cell/>" ∧
      convertMaxGraphToDrawIO "<Cell/>" = String.mk (convertL ("<Cell/>".data))) :=
  ⟨rfl, C9_pure_deterministic "<Cell/>" "<Cell/>" rfl⟩

/-- C10: a styled cell whose descriptor carries nothing but the
`as="style"` discriminator gets no `style` attribute at all — the
descriptor is removed and the self-closing geometry child kept — and
the conversion of a well-formed document is the concatenation of the
per-cell outputs. -/
theorem C10_empty_descriptor_no_style (d : NativeDoc) (h : WFdoc d)
    (attrs geom : List Attr) :
    convertMaxGraphToDrawIO (docString d) =
      String.mk ((d.cells.map convertCell).flatten) ∧
    convertCell (.styled attrs geom [] []) =
      "<mxCell".data ++ attrsStr attrs ++ ">".data ++
      "<mxGeometry".data ++ attrsStr (geom.map convGeomAttr) ++ "/>".data ++
      "</mxCell>".data := by
  refine ⟨?_, ?_⟩
  · show String.mk (convertL (docStr d)) = _
    rw [convertL_doc d h]
  · show "<mxCell".data ++ attrsStr attrs ++ styleAttrStr [] ++ ">".data ++
      "<mxGeometry".data ++ attrsStr (geom.map convGeomAttr) ++ "/>".data ++
      "</mxCell>".data = _
    rw [show styleAttrStr [] = [] from rfl]
    simp

set_option maxRecDepth 10000 in
theorem C10_empty_descriptor_no_style_witness :
    WFdoc dEmptySty ∧
    ( convertMaxGraphToDrawIO (docString dEmptySty) =
        String.mk ((dEmptySty.cells.map convertCell).flatten) ∧
      convertCell (.styled [⟨"id".data, "a".data⟩] [⟨"_y".data, "3".data⟩] [] []) =
        "<mxCell".data ++ attrsStr [⟨"id".data, "a".data⟩] ++ ">".data ++
        "<mxGeometry".data ++
        attrsStr (List.map convGeomAttr [⟨"_y".data, "3".data⟩]) ++ "/>".data ++
        "</mxCell>".data) :=
  ⟨by decide, C10_empty_descriptor_no_style dEmptySty (by decide)
    [⟨"id".data, "a".data⟩] [⟨"_y".data, "3".data⟩]⟩

end DrawioConv
